import Mathlib

/-!
Verification of the document-equivalence engine and the rule bridge of the
dash0 terraform provider (packages `internal/converter` and `internal/types`).

The Go code is shallowly embedded:

* An untyped YAML document tree (Go `map[string]interface{}` /
  `[]interface{}` / scalars, as produced by `yaml.Unmarshal`) is the
  mutual inductive family `Val`/`Items`/`Ents`.  Go maps are represented
  as entry lists (genuine Go maps never hold a key twice); a Go `nil` map
  is distinguished from an empty map by `Option` where the distinction is
  observable.
* Machine integers (`int`, `int64` nanosecond durations) are modelled by
  `Int`; the claims stay far away from overflow, which is therefore not
  modelled.  YAML floating point leaves are modelled by `Rat`
  (every float literal a YAML document can carry denotes a rational;
  none of the verified properties depend on IEEE rounding).
* Functions that can fail return `Option`/`Except`; a Go `panic`
  (assignment into a nil map) is modelled by `Option.none` of the whole
  conversion.

Each Go function keeps its source name (`ConvertPromYAMLToDash0CheckRule`,
`cleanupMap`, `ResourceYAMLEquivalent`, ...).
-/

namespace Dash0

/-! ### Go scalar primitives -/

/-- Go `strconv.Itoa`. -/
def goItoa (n : Int) : String := toString n

/-- Go `strconv.Atoi`: optional sign followed by at least one decimal digit.
Overflow of `int` is not modelled (the verified claims use small numbers). -/
def goAtoi (s : String) : Option Int :=
  let core : Bool → List Char → Option Int := fun neg digits =>
    if digits.isEmpty then none
    else if digits.all (fun c => c.isDigit) then
      let n : Nat := digits.foldl (fun a c => a * 10 + (c.toNat - 48)) 0
      some (if neg then -(n : Int) else (n : Int))
    else none
  match s.data with
  | '-' :: rest => core true rest
  | '+' :: rest => core false rest
  | cs => core false cs

/-- Go `strconv.ParseBool`. -/
def goParseBool (s : String) : Option Bool :=
  if s = "1" ∨ s = "t" ∨ s = "T" ∨ s = "TRUE" ∨ s = "true" ∨ s = "True" then
    some true
  else if s = "0" ∨ s = "f" ∨ s = "F" ∨ s = "FALSE" ∨ s = "false" ∨ s = "False" then
    some false
  else none

/-- Nanoseconds per unit, as in Go `time`'s `unitMap`. -/
def durUnitNs (u : String) : Option Int :=
  if u = "ns" then some 1
  else if u = "us" ∨ u = "µs" ∨ u = "μs" then some 1000
  else if u = "ms" then some 1000000
  else if u = "s" then some 1000000000
  else if u = "m" then some 60000000000
  else if u = "h" then some 3600000000000
  else none

/-- Longest prefix of decimal digits, and the rest. -/
def spanDigits : List Char → List Char × List Char
  | [] => ([], [])
  | c :: cs =>
    if c.isDigit then
      let p := spanDigits cs
      (c :: p.1, p.2)
    else ([], c :: cs)

/-- Longest prefix that is neither a digit nor a dot (a duration unit), and
the rest; Go scans the unit up to the next digit or `.`. -/
def spanUnit : List Char → List Char × List Char
  | [] => ([], [])
  | c :: cs =>
    if c.isDigit ∨ c = '.' then ([], c :: cs)
    else
      let p := spanUnit cs
      (c :: p.1, p.2)

def digitsToNat (ds : List Char) : Nat :=
  ds.foldl (fun a c => a * 10 + (c.toNat - 48)) 0

/-- The `(number [fraction] unit)+` loop of Go `time.ParseDuration`.
The fuel argument only bounds the recursion; every iteration consumes at
least the (non-empty) unit, so `length + 1` fuel never runs out.
Go accumulates the fractional part through `float64`; this model computes
it exactly with truncating integer division, which agrees with Go on every
duration the repository can produce. -/
def parseDurLoop : Nat → List Char → Option Int
  | _, [] => some 0
  | 0, _ :: _ => none
  | fuel + 1, c :: cs =>
    let p1 := spanDigits (c :: cs)
    let intDigits := p1.1
    let p2 :=
      match p1.2 with
      | '.' :: cs2 => spanDigits cs2
      | r => ([], r)
    let fracDigits := p2.1
    let hasDot : Bool := match p1.2 with | '.' :: _ => true | _ => false
    -- Go errors when no digits were consumed at all (`!pre && !post`)
    if intDigits.isEmpty ∧ (¬ hasDot ∨ fracDigits.isEmpty) then
      none
    else
      let p3 := spanUnit p2.2
      if p3.1.isEmpty then none
      else
        match durUnitNs (String.mk p3.1) with
        | none => none
        | some u =>
          let whole : Int := (digitsToNat intDigits : Int) * u
          let scale : Int := (10 : Int) ^ fracDigits.length
          let frac : Int := ((digitsToNat fracDigits : Int) * u) / scale
          match parseDurLoop fuel p3.2 with
          | none => none
          | some acc => some (whole + frac + acc)

/-- Go `time.ParseDuration`: optional sign, the special case `"0"`, then the
repeated number/unit loop.  Returns the value in nanoseconds. -/
def parseDuration (s : String) : Option Int :=
  let signed : Bool × List Char :=
    match s.data with
    | '-' :: r => (true, r)
    | '+' :: r => (false, r)
    | r => (false, r)
  if signed.2 = ['0'] then some 0
  else if signed.2.isEmpty then none
  else
    match parseDurLoop (signed.2.length + 1) signed.2 with
    | none => none
    | some v => some (if signed.1 then -v else v)

/-- Fractional-seconds suffix used by Go `time.Duration.String`: prints
`v` with `prec` decimal digits after the point, trailing zeros trimmed,
and returns the remaining integer part. -/
def fmtFrac (v : Nat) (prec : Nat) : String × Nat :=
  let frac := v % (10 ^ prec)
  let rest := v / (10 ^ prec)
  if frac = 0 then ("", rest)
  else
    let raw := toString frac
    let padded := String.mk (List.replicate (prec - raw.length) '0') ++ raw
    let trimmed := String.mk ((padded.data.reverse.dropWhile (fun c => c = '0')).reverse)
    ("." ++ trimmed, rest)

/-- Go `time.Duration.String` (value in nanoseconds). -/
def durString (d : Int) : String :=
  let u := d.natAbs
  let core : String :=
    if u = 0 then "0s"
    else if u < 1000 then toString u ++ "ns"
    else if u < 1000000 then
      let p := fmtFrac u 3
      toString p.2 ++ p.1 ++ "µs"
    else if u < 1000000000 then
      let p := fmtFrac u 6
      toString p.2 ++ p.1 ++ "ms"
    else
      let p := fmtFrac u 9
      let sec := p.2
      let s := toString (sec % 60) ++ p.1 ++ "s"
      let mins := sec / 60
      if mins = 0 then s
      else
        let m := toString (mins % 60) ++ "m" ++ s
        let hrs := mins / 60
        if hrs = 0 then m else toString hrs ++ "h" ++ m
  if d < 0 then "-" ++ core else core

/-- Multiplicity of the factor `p` in `n` (first argument doubles as fuel). -/
def multPow (p : Nat) : Nat → Nat → Nat
  | 0, _ => 0
  | fuel + 1, n =>
    if 1 < p ∧ 0 < n ∧ n % p = 0 then multPow p fuel (n / p) + 1 else 0

/-- Decimal digits of `n`, most significant first (first argument is
fuel). -/
def natDigitsF : Nat → Nat → List Char
  | 0, _ => []
  | _ + 1, 0 => []
  | fuel + 1, n => natDigitsF fuel (n / 10) ++ [Char.ofNat (48 + n % 10)]

/-- Decimal printing of a natural number (Go `strconv` semantics). -/
def natDecimal (n : Nat) : String :=
  if n = 0 then "0" else String.mk (natDigitsF (n + 1) n)

/-- Decimal printing of an integer (Go `strconv.Itoa` semantics). -/
def intDecimal (n : Int) : String :=
  if n < 0 then "-" ++ natDecimal n.natAbs else natDecimal n.toNat

/-- Printing of a numeric (float) leaf by Go `fmt`'s `%v`.  YAML float
literals always have a denominator of the form `2^a·5^b`, for which this
produces the exact decimal expansion Go prints. -/
def ratSprint (q : Rat) : String :=
  if q.den = 1 then intDecimal q.num
  else
    let a := multPow 2 q.den q.den
    let b := multPow 5 q.den q.den
    let k := max a b
    if q.den = 2 ^ a * 5 ^ b then
      let scaled : Int := q.num * (10 ^ k) / q.den
      let sign := if scaled < 0 then "-" else ""
      let n := scaled.natAbs
      let ip := n / 10 ^ k
      let fp := n % 10 ^ k
      let raw := toString fp
      let padded := String.mk (List.replicate (k - raw.length) '0') ++ raw
      let trimmed := String.mk ((padded.data.reverse.dropWhile (fun c => c = '0')).reverse)
      sign ++ natDecimal ip ++ (if trimmed = "" then "" else "." ++ trimmed)
    else toString q.num ++ "/" ++ toString q.den

/-! ### The document tree -/

mutual

/-- A parsed YAML/JSON document node, as in Go `interface{}` after
`yaml.Unmarshal`: string, int, float, bool, null, `[]interface{}` or
`map[string]interface{}`. -/
inductive Val where
  | str : String → Val
  | int : Int → Val
  | flt : Rat → Val
  | bool : Bool → Val
  | null : Val
  | list : Items → Val
  | map : Ents → Val

/-- A Go `[]interface{}`. -/
inductive Items where
  | nil : Items
  | cons : Val → Items → Items

/-- A Go `map[string]interface{}`, as its list of entries (genuine Go maps
never hold the same key twice). -/
inductive Ents where
  | nil : Ents
  | cons : String → Val → Ents → Ents

end

def Ents.ofList : List (String × Val) → Ents
  | [] => .nil
  | (k, v) :: rest => .cons k v (Ents.ofList rest)

def Items.ofList : List Val → Items
  | [] => .nil
  | v :: rest => .cons v (Items.ofList rest)

def Ents.toList : Ents → List (String × Val)
  | .nil => []
  | .cons k v rest => (k, v) :: rest.toList

def Items.toList : Items → List Val
  | .nil => []
  | .cons v rest => v :: rest.toList

/-- Go map lookup `m[k]` (first matching entry; Go maps have unique keys). -/
def Ents.lookup (k : String) : Ents → Option Val
  | .nil => none
  | .cons k2 v rest => if k2 == k then some v else rest.lookup k

def Ents.keys : Ents → List String
  | .nil => []
  | .cons k _ rest => k :: rest.keys

def Ents.append : Ents → Ents → Ents
  | .nil, ys => ys
  | .cons k v rest, ys => .cons k v (rest.append ys)

def Items.isEmpty : Items → Bool
  | .nil => true
  | .cons _ _ => false

mutual

/-- Computable node count of a tree; used as recursion fuel by `cmpEqual`. -/
def valSize : Val → Nat
  | .list l => itemsSize l + 1
  | .map m => entriesSize m + 1
  | _ => 1

def itemsSize : Items → Nat
  | .nil => 1
  | .cons v rest => valSize v + itemsSize rest + 1

def entriesSize : Ents → Nat
  | .nil => 1
  | .cons _ v rest => valSize v + entriesSize rest + 1

end

/-! ### fmt.Sprint -/

/-- Byte-wise (equivalently, code-point-wise) lexicographic `<=` on
strings, the order Go uses for `string` comparison. -/
def charListLe : List Char → List Char → Bool
  | [], _ => true
  | _ :: _, [] => false
  | a :: as, b :: bs =>
    if a.toNat < b.toNat then true
    else if b.toNat < a.toNat then false
    else charListLe as bs

def strLe (a b : String) : Bool := charListLe a.data b.data

/-- Insertion into an ascending list (by the Boolean comparator `le`). -/
def insertSorted (le : α → α → Bool) (a : α) : List α → List α
  | [] => [a]
  | b :: l => if le a b then a :: b :: l else b :: insertSorted le a l

/-- Ascending insertion sort by the Boolean comparator `le`. -/
def sortBy (le : α → α → Bool) : List α → List α
  | [] => []
  | b :: l => insertSorted le b (sortBy le l)

/-- Go `fmt` prints maps with their keys in sorted order; sorting happens
on (key, rendered value) pairs. -/
def sortStrKey (m : List (String × String)) : List (String × String) :=
  sortBy (fun a b => strLe a.1 b.1) m

mutual

/-- Go `fmt.Sprintf("%v", v)`: scalars print directly, slices print as
`[a b c]`, maps as `map[k1:v1 k2:v2]` with keys sorted. -/
def sprint : Val → String
  | .str s => s
  | .int n => intDecimal n
  | .flt q => ratSprint q
  | .bool b => if b then "true" else "false"
  | .null => "<nil>"
  | .list l => "[" ++ String.intercalate " " (sprintItems l) ++ "]"
  | .map m =>
    "map[" ++
      String.intercalate " "
        ((sortStrKey (sprintEntries m)).map (fun kv => kv.1 ++ ":" ++ kv.2)) ++ "]"

def sprintItems : Items → List String
  | .nil => []
  | .cons v rest => sprint v :: sprintItems rest

def sprintEntries : Ents → List (String × String)
  | .nil => []
  | .cons k v rest => (k, sprint v) :: sprintEntries rest

end

/-! ### The normalizer (normalizer.go) -/

/-- Fields to ignore when comparing resource YAMLs (source: `ignoredFields`
in normalizer.go). -/
def ignoredFields : List String :=
  ["apiVersion", "kind", "metadata.labels", "metadata.annotations",
   "metadata.createdAt", "metadata.updatedAt", "metadata.version",
   "metadata.dash0Extensions", "metadata.name"]

/-- Split a path at its first `.` (Go `strings.Index(path, ".")` with the
two slices `path[:idx]` and `path[idx+1:]`); `none` when there is no dot. -/
def breakDot : List Char → Option (List Char × List Char)
  | [] => none
  | '.' :: r => some ([], r)
  | c :: r =>
    match breakDot r with
    | none => none
    | some (a, b) => some (c :: a, b)

/-- In `cleanupMap`, a dot-free path is removed at the current level
(Go builds the set `removeHere` before the loop). -/
def removeHere (fields : List String) (k : String) : Bool :=
  fields.any (fun p => (breakDot p.data).isNone && p == k)

/-- In `cleanupMap`, paths starting with `k ++ "."` are passed, with their
first component dropped, to the recursion into the map at `k`
(Go's `nestedRemovals[key]`). -/
def nestedFor (fields : List String) (k : String) : List String :=
  fields.filterMap (fun p =>
    match breakDot p.data with
    | none => none
    | some (a, b) => if String.mk a = k then some (String.mk b) else none)

/-- Go `stringifyMapValues`: coerce every non-string value of a map to its
`%v` representation. -/
def stringifyMapValues : Ents → Ents
  | .nil => .nil
  | .cons k v rest =>
    (match v with
     | .str s => Ents.cons k (.str s) (stringifyMapValues rest)
     | v => Ents.cons k (.str (sprint v)) (stringifyMapValues rest))

/-- Go `removeDefaultAnnotationValues`: drop `dash0-threshold-critical`/
`dash0-threshold-degraded` entries whose (string) value is `"0"` and
`dash0-enabled` entries whose value is `"true"`. -/
def removeDefaultAnnotationValues : Ents → Ents
  | .nil => .nil
  | .cons k v rest =>
    (match v with
     | .str s =>
       if ((k = "dash0-threshold-critical" ∨ k = "dash0-threshold-degraded") ∧ s = "0")
          ∨ (k = "dash0-enabled" ∧ s = "true") then
         removeDefaultAnnotationValues rest
       else Ents.cons k (.str s) (removeDefaultAnnotationValues rest)
     | v => Ents.cons k v (removeDefaultAnnotationValues rest))

/-- Go `isEmpty`: a map is empty when every value is an empty map, an empty
list or the empty string. -/
def isEmpty : Ents → Bool
  | .nil => true
  | .cons _ v rest =>
    (match v with
     | .map m => isEmpty m
     | .list l => l.isEmpty
     | .str s => s == ""
     | _ => false)
    && isEmpty rest

mutual

/-- Go `cleanupMap(data, fieldsToRemove)` (fields argument first for
currying): removes the dot-free fields at this level, recurses into map
values (with the matching path tails) and into map items of list values,
stringifies `annotations`/`labels` maps, removes default-valued
annotation entries, deletes empty maps/lists/strings and zero
`keep_firing_for` duration strings. -/
def cleanupMap (fields : List String) : Ents → Ents
  | .nil => .nil
  | .cons k v rest =>
    if removeHere fields k then cleanupMap fields rest
    else
      match v with
      | .map m =>
        let w0 := cleanupMap (nestedFor fields k) m
        let w1 := if k = "annotations" ∨ k = "labels" then stringifyMapValues w0 else w0
        let w2 := if k = "annotations" then removeDefaultAnnotationValues w1 else w1
        if isEmpty w2 then cleanupMap fields rest
        else .cons k (.map w2) (cleanupMap fields rest)
      | .list l =>
        let w := cleanupList l
        if w.isEmpty then cleanupMap fields rest
        else .cons k (.list w) (cleanupMap fields rest)
      | .str s =>
        if s = "" then cleanupMap fields rest
        else if k = "keep_firing_for" ∧ parseDuration s = some 0 then
          cleanupMap fields rest
        else .cons k (.str s) (cleanupMap fields rest)
      | other => .cons k other (cleanupMap fields rest)

/-- The `[]interface{}` branch of `cleanupMap`: map items are cleaned in
place (with no field paths), other items are untouched; items are never
removed. -/
def cleanupList : Items → Items
  | .nil => .nil
  | .cons (.map m) rest => .cons (.map (cleanupMap [] m)) (cleanupList rest)
  | .cons v rest => .cons v (cleanupList rest)

end

/-- Go `NormalizeYAML` at tree level: parsing, re-encoding and the trailing
newline trim are inverse bijections between the YAML text and the tree, so
the normalization itself is exactly `cleanupMap` with `ignoredFields`. -/
def NormalizeYAML (d : Ents) : Ents :=
  cleanupMap ignoredFields d

mutual

/-- Go `normalizeNumericTypes`: every integer-family leaf becomes a
64-bit float (the model's single `int` constructor stands for
`int`/`int32`/`int64`; `float32` widening is identity here). -/
def normalizeNumericTypes : Val → Val
  | .int n => .flt (n : Rat)
  | .map m => .map (normNumEntries m)
  | .list l => .list (normNumItems l)
  | v => v

def normNumEntries : Ents → Ents
  | .nil => .nil
  | .cons k v rest => .cons k (normalizeNumericTypes v) (normNumEntries rest)

def normNumItems : Items → Items
  | .nil => .nil
  | .cons v rest => .cons (normalizeNumericTypes v) (normNumItems rest)

end

/-- `cmpopts.SortSlices` comparison key: slices are sorted by
`fmt.Sprint` of their elements before element-wise comparison. -/
def sortBySprint (l : List Val) : List Val :=
  sortBy (fun a b => strLe (sprint a) (sprint b)) l

/-- `cmp.Equal` with the two options used by `ResourceYAMLEquivalent`:
slices are compared as sorted-by-`fmt.Sprint` sequences, and two string
leaves that both parse as Go durations are compared by their parsed value.
Maps are compared key-wise.  The fuel only bounds the recursion through
sorted lists; the wrapper `cmpEqual` supplies enough. -/
def cmpEqualF : Nat → Val → Val → Bool
  | _, .str a, .str b =>
    (match parseDuration a, parseDuration b with
     | some x, some y => x == y
     | _, _ => a == b)
  | _, .int a, .int b => a == b
  | _, .flt a, .flt b => a == b
  | _, .bool a, .bool b => a == b
  | _, .null, .null => true
  | 0, .list _, .list _ => false
  | 0, .map _, .map _ => false
  | fuel + 1, .list a, .list b =>
    let sa := sortBySprint a.toList
    let sb := sortBySprint b.toList
    sa.length == sb.length && (sa.zip sb).all (fun p => cmpEqualF fuel p.1 p.2)
  | fuel + 1, .map a, .map b =>
    a.toList.all (fun kv =>
      match Ents.lookup kv.1 b with
      | some w => cmpEqualF fuel kv.2 w
      | none => false)
    && b.toList.all (fun kv => (Ents.lookup kv.1 a).isSome)
  | _, _, _ => false

def cmpEqual (a b : Val) : Bool := cmpEqualF (valSize a + valSize b) a b

/-- Go `ResourceYAMLEquivalent` on already-parsed documents: normalize both
sides, re-parse (identity at tree level), widen numeric types, then
`cmp.Equal` with the slice-sorting and duration-aware options.  The Go
error results only arise from text-level parse failures, which the tree
model does not produce. -/
def ResourceYAMLEquivalent (a b : Ents) : Bool :=
  cmpEqual (normalizeNumericTypes (.map (NormalizeYAML a)))
           (normalizeNumericTypes (.map (NormalizeYAML b)))

/-! ### The rule bridge: typed records (types/check_rule.go) -/

/-- A Go `map[string]string`; `none` is a nil map (a JSON/YAML document
without the key decodes to nil, `{}` decodes to an empty non-nil map). -/
abbrev StrMap := Option (List (String × String))

def lookupStr : List (String × String) → String → Option String
  | [], _ => none
  | (k2, v) :: rest, k => if k2 == k then some v else lookupStr rest k

/-- Go `m[k]` on a `map[string]string` (nil maps look up to absent). -/
def strLookup (m : StrMap) (k : String) : Option String :=
  match m with
  | none => none
  | some xs => lookupStr xs k

def deleteStr : List (String × String) → String → List (String × String)
  | [], _ => []
  | (k2, v) :: rest, k =>
    if k2 == k then deleteStr rest k else (k2, v) :: deleteStr rest k

/-- Go `delete(m, k)` (a no-op on nil maps). -/
def strDelete (m : StrMap) (k : String) : StrMap :=
  m.map (fun xs => deleteStr xs k)

def assignList : List (String × String) → String → String → List (String × String)
  | [], k, v => [(k, v)]
  | (k2, v2) :: rest, k, v =>
    if k2 == k then (k2, v) :: rest else (k2, v2) :: assignList rest k v

/-- Go `m[k] = v`: assignment into a nil map panics, modelled as `none`. -/
def strAssign (m : StrMap) (k v : String) : Option StrMap :=
  match m with
  | none => none
  | some xs => some (some (assignList xs k v))

/-- Go `types.Dash0CheckRuleThresholds` (int fields in the snapshot the
converter compiles against). -/
structure Dash0CheckRuleThresholds where
  degraded : Int
  failed : Int

/-- Go `types.Dash0CheckRule`.  Duration fields hold nanoseconds
(`type Duration time.Duration`); `forD` renders Go's `For` (a Lean
keyword). -/
structure Dash0CheckRule where
  dataset : String
  id : String
  name : String
  expression : String
  thresholds : Dash0CheckRuleThresholds
  summary : String
  description : String
  interval : Int
  forD : Int
  keepFiringFor : Int
  labels : StrMap
  annotations : StrMap
  enabled : Bool

/-- Go `types.PrometheusRule`. -/
structure PrometheusRule where
  alert : String
  expr : String
  forD : Int
  keepFiringFor : Int
  annotations : StrMap
  labels : StrMap

/-- Go `types.PrometheusRulesGroup`. -/
structure PrometheusRulesGroup where
  name : String
  interval : Int
  rules : List PrometheusRule

/-- Go `types.PrometheusRulesSpec`. -/
structure PrometheusRulesSpec where
  groups : List PrometheusRulesGroup

/-- Go `types.PrometheusRules`. -/
structure PrometheusRules where
  apiVersion : String
  kind : String
  metadata : StrMap
  spec : PrometheusRulesSpec

/-- The error results of the rule bridge (Go `fmt.Errorf` values; each
constructor stands for the fixed message of check_rule.go). -/
inductive ConvErr where
  /-- "currently only one group is supported" -/
  | onlyOneGroup
  /-- "currently only one rule per group is supported" -/
  | onlyOneRule
  /-- "invalid value for dash0-threshold-critical: %v" -/
  | invalidCritical
  /-- "invalid value for dash0-threshold-degraded: %v" -/
  | invalidDegraded
  /-- "invalid value for dash0-enabled: %v" -/
  | invalidEnabled
deriving DecidableEq

/-- Go `ConvertPromYAMLToDash0CheckRule` after the `yaml.Unmarshal` step
(the function is modelled on the decoded `types.PrometheusRules` value;
a YAML parse failure is the only error path not represented).  The
annotation map is threaded through the record exactly as the Go code
mutates the single shared map. -/
def ConvertPromYAMLToDash0CheckRule (promRule : PrometheusRules) (dataset : String) :
    Except ConvErr Dash0CheckRule := do
  let group ←
    match promRule.spec.groups with
    | [g] => Except.ok g
    | _ => Except.error ConvErr.onlyOneGroup
  let rule ←
    match group.rules with
    | [r] => Except.ok r
    | _ => Except.error ConvErr.onlyOneRule
  let name := group.name ++ " - " ++ rule.alert
  -- The `if summary, ok := rule.Annotations["summary"]; ok { ... }`
  -- assignments overwrite the record's zero value, so the summary and
  -- description fields are exactly the lookup's value-or-"".
  let dash0 : Dash0CheckRule :=
    { dataset := dataset
      id := ""
      name := name
      interval := group.interval
      annotations := rule.annotations
      labels := rule.labels
      forD := rule.forD
      expression := rule.expr
      keepFiringFor := rule.keepFiringFor
      thresholds := { degraded := 0, failed := 0 }
      summary := (strLookup rule.annotations "summary").getD ""
      description := (strLookup rule.annotations "description").getD ""
      enabled := false }
  let dash0 ←
    match strLookup dash0.annotations "dash0-threshold-critical" with
    | some thresholdCritial =>
      match goAtoi thresholdCritial with
      | some criticalInt =>
        Except.ok { dash0 with
          thresholds := { dash0.thresholds with failed := criticalInt }
          annotations := strDelete dash0.annotations "dash0-threshold-critical" }
      | none => Except.error ConvErr.invalidCritical
    | none => Except.ok dash0
  let dash0 ←
    match strLookup dash0.annotations "dash0-threshold-degraded" with
    | some thresholdDegraded =>
      match goAtoi thresholdDegraded with
      | some degradedInt =>
        Except.ok { dash0 with
          thresholds := { dash0.thresholds with degraded := degradedInt }
          annotations := strDelete dash0.annotations "dash0-threshold-degraded" }
      | none => Except.error ConvErr.invalidDegraded
    | none => Except.ok dash0
  let dash0 ←
    match strLookup dash0.annotations "dash0-enabled" with
    | some enabled =>
      match goParseBool enabled with
      | some enabledBool =>
        Except.ok { dash0 with
          enabled := enabledBool
          annotations := strDelete dash0.annotations "dash0-enabled" }
      | none => Except.error ConvErr.invalidEnabled
    | none =>
      -- setting default value to true
      Except.ok { dash0 with enabled := true }
  return dash0

/-- Go `strings.SplitN(s, sep, 2)`: split at the first occurrence of
`sep`; `none` when `sep` does not occur. -/
def splitFirst (sep : List Char) : List Char → Option (List Char × List Char)
  | [] => none
  | c :: r =>
    if sep.isPrefixOf (c :: r) then some ([], (c :: r).drop sep.length)
    else
      match splitFirst sep r with
      | none => none
      | some p => some (c :: p.1, p.2)

/-- Go `ConvertDash0JSONtoPrometheusRules` after the `json.Unmarshal` step
(modelled on the decoded `types.Dash0CheckRule`; the JSON parse failure is
the only error path not represented).  The Go function assigns into
`promRule.Annotations`, which is the record's annotation map: when that
map is nil, the assignment panics — modelled as result `none`. -/
def ConvertDash0JSONtoPrometheusRules (dash0CheckRule : Dash0CheckRule) :
    Option PrometheusRules :=
  let nameParts := splitFirst (" - ".data) dash0CheckRule.name.data
  let groupName :=
    match nameParts with
    | some p => String.mk p.1
    | none => dash0CheckRule.name
  let alertName :=
    match nameParts with
    | some p => String.mk p.2
    | none => dash0CheckRule.name
  -- explicitly set the annotation only if false, as true is the default
  Option.bind
    (if !dash0CheckRule.enabled then
       strAssign dash0CheckRule.annotations "dash0-enabled" "false"
     else some dash0CheckRule.annotations) fun annots =>
  Option.bind
    (if dash0CheckRule.summary ≠ "" then strAssign annots "summary" dash0CheckRule.summary
     else some annots) fun annots =>
  Option.bind
    (if dash0CheckRule.description ≠ "" then
       strAssign annots "description" dash0CheckRule.description
     else some annots) fun annots =>
  Option.bind
    (if dash0CheckRule.thresholds.failed ≠ 0 then
       strAssign annots "dash0-threshold-critical" (goItoa dash0CheckRule.thresholds.failed)
     else some annots) fun annots =>
  Option.bind
    (if dash0CheckRule.thresholds.degraded ≠ 0 then
       strAssign annots "dash0-threshold-degraded" (goItoa dash0CheckRule.thresholds.degraded)
     else some annots) fun annots =>
  some {
    apiVersion := "monitoring.coreos.com/v1"
    kind := "PrometheusRule"
    metadata := some []
    spec := {
      groups := [{
        name := groupName
        interval := dash0CheckRule.interval
        rules := [{
          alert := alertName
          expr := dash0CheckRule.expression
          forD := dash0CheckRule.forD
          keepFiringFor := dash0CheckRule.keepFiringFor
          labels := dash0CheckRule.labels
          annotations := annots }] }] } }

/-! ### yaml.Marshal of the typed document -/

/-- The tree `yaml.Marshal` produces for a `map[string]string` value:
keys in sorted order, string values; a nil map encodes as `null`. -/
def strMapVal : StrMap → Val
  | none => .null
  | some xs =>
    .map (Ents.ofList ((sortBy (fun a b => strLe a.1 b.1) xs).map
      (fun kv => (kv.1, Val.str kv.2))))

/-- `yaml.Marshal` of a `types.PrometheusRule`: struct fields in
declaration order, `Duration` fields via `Duration.String`,
`keep_firing_for` dropped when zero (`omitempty`). -/
def marshalRule (r : PrometheusRule) : Val :=
  .map (Ents.ofList (
    [("alert", Val.str r.alert),
     ("expr", Val.str r.expr),
     ("for", Val.str (durString r.forD))]
    ++ (if r.keepFiringFor = 0 then []
        else [("keep_firing_for", Val.str (durString r.keepFiringFor))])
    ++ [("annotations", strMapVal r.annotations),
        ("labels", strMapVal r.labels)]))

/-- `yaml.Marshal` of a `types.PrometheusRulesGroup`. -/
def marshalGroup (g : PrometheusRulesGroup) : Val :=
  .map (Ents.ofList
    [("name", Val.str g.name),
     ("interval", Val.str (durString g.interval)),
     ("rules", Val.list (Items.ofList (g.rules.map marshalRule)))])

/-- `yaml.Marshal` of a `types.PrometheusRules` document. -/
def marshalPrometheusRules (p : PrometheusRules) : Ents :=
  Ents.ofList
    [("apiVersion", Val.str p.apiVersion),
     ("kind", Val.str p.kind),
     ("metadata", strMapVal p.metadata),
     ("spec", Val.map (Ents.ofList
       [("groups", Val.list (Items.ofList (p.spec.groups.map marshalGroup)))]))]

/-! ### Concrete documents used by counterexamples and witnesses -/

/-- A two-group document (cardinality violation). -/
def twoGroupDoc : PrometheusRules :=
  { apiVersion := "monitoring.coreos.com/v1", kind := "PrometheusRule"
    metadata := some []
    spec := { groups := [
      { name := "g1", interval := 60000000000
        rules := [{ alert := "a1", expr := "x > 0", forD := 0, keepFiringFor := 0
                    annotations := some [], labels := some [] }] },
      { name := "g2", interval := 60000000000
        rules := [{ alert := "a2", expr := "y > 0", forD := 0, keepFiringFor := 0
                    annotations := some [], labels := some [] }] } ] } }

/-- A single-group document with zero rules (cardinality violation). -/
def zeroRuleDoc : PrometheusRules :=
  { apiVersion := "monitoring.coreos.com/v1", kind := "PrometheusRule"
    metadata := some []
    spec := { groups := [{ name := "g", interval := 60000000000, rules := [] }] } }

/-- The float-threshold document of the repository's own test table
(`TestConvertPromYAMLToDash0CheckRule_FloatThresholds`, case
"float thresholds with decimals"): `dash0-threshold-critical: "99.99"`. -/
def floatThresholdDoc : PrometheusRules :=
  { apiVersion := "monitoring.coreos.com/v1", kind := "PrometheusRule"
    metadata := some []
    spec := { groups := [{ name := "TestGroup", interval := 60000000000
                           rules := [{ alert := "TestAlert", expr := "test_metric > $__threshold"
                                       forD := 300000000000, keepFiringFor := 0
                                       annotations := some [("summary", "Test alert"),
                                                            ("dash0-threshold-critical", "99.99"),
                                                            ("dash0-threshold-degraded", "50.5")]
                                       labels := some [("severity", "warning")] }] }] } }

/-- A record whose JSON had no `annotations` key (nil map) and which is
disabled, so the reverse conversion must write into the nil map. -/
def nilAnnotationsRec : Dash0CheckRule :=
  { dataset := "default", id := "", name := "g - a", expression := "x > 0"
    thresholds := { degraded := 0, failed := 0 }, summary := "", description := ""
    interval := 0, forD := 0, keepFiringFor := 0
    labels := none, annotations := none, enabled := false }

/-- A rule with a `summary` annotation and an unclaimed key. -/
def summaryRule : PrometheusRule :=
  { alert := "a", expr := "x > 0", forD := 0, keepFiringFor := 0
    annotations := some [("summary", "s1"), ("foo", "bar")]
    labels := some [] }

def summaryGroup : PrometheusRulesGroup :=
  { name := "g", interval := 60000000000, rules := [summaryRule] }

def summaryDoc : PrometheusRules :=
  { apiVersion := "monitoring.coreos.com/v1", kind := "PrometheusRule"
    metadata := some []
    spec := { groups := [summaryGroup] } }

/-- The record `ConvertPromYAMLToDash0CheckRule summaryDoc "default"`
produces. -/
def summaryRec : Dash0CheckRule :=
  { dataset := "default", id := "", name := "g - a", expression := "x > 0"
    thresholds := { degraded := 0, failed := 0 }
    summary := "s1", description := ""
    interval := 60000000000, forD := 0, keepFiringFor := 0
    labels := some [], annotations := some [("summary", "s1"), ("foo", "bar")]
    enabled := true }

/-- An enabled record whose residual annotations lack `dash0-enabled`. -/
def noEnabledRec : Dash0CheckRule :=
  { dataset := "default", id := "", name := "g - a", expression := "x"
    thresholds := { degraded := 0, failed := 0 }, summary := "", description := ""
    interval := 0, forD := 0, keepFiringFor := 0
    labels := some [], annotations := some [("x", "y")], enabled := true }

def noEnabledOutRule : PrometheusRule :=
  { alert := "a", expr := "x", forD := 0, keepFiringFor := 0
    annotations := some [("x", "y")], labels := some [] }

def noEnabledOutGroup : PrometheusRulesGroup :=
  { name := "g", interval := 0, rules := [noEnabledOutRule] }

def noEnabledOut : PrometheusRules :=
  { apiVersion := "monitoring.coreos.com/v1", kind := "PrometheusRule"
    metadata := some []
    spec := { groups := [noEnabledOutGroup] } }

/-- A record that is enabled but whose residual annotations already carry a
`dash0-enabled` key (possible for an arbitrary record, impossible for the
records the forward conversion produces). -/
def enabledPassthroughRec : Dash0CheckRule :=
  { dataset := "default", id := "", name := "g - a", expression := "x"
    thresholds := { degraded := 0, failed := 0 }, summary := "", description := ""
    interval := 0, forD := 0, keepFiringFor := 0
    labels := some [], annotations := some [("dash0-enabled", "false")], enabled := true }


/-! ### Paths into a document

Used to state the properties about adding an entry to a map somewhere in a
document: a path is a sequence of map-key and list-index steps, and
`procPathVal` says the `cleanupMap` traversal reaches (and hence processes)
the map at the path. -/

/-- One step of a document path: into the value at a map key, or into a
list item. -/
inductive Step where
  | key : String → Step
  | idx : Nat → Step

/-- Replace the value of the first entry with key `k`. -/
def modFirst (k : String) (f : Val → Val) : Ents → Ents
  | .nil => .nil
  | .cons k2 v rest =>
    if k2 = k then .cons k2 (f v) rest else .cons k2 v (modFirst k f rest)

/-- Replace the item at index `i`. -/
def modIdx (f : Val → Val) : Nat → Items → Items
  | _, .nil => .nil
  | 0, .cons v rest => .cons (f v) rest
  | i + 1, .cons v rest => .cons v (modIdx f i rest)

def Items.get? : Items → Nat → Option Val
  | .nil, _ => none
  | .cons v _, 0 => some v
  | .cons _ rest, i + 1 => rest.get? i

/-- Apply `g` to the map reached by `path` inside a value. -/
def modAtVal (g : Ents → Ents) : List Step → Val → Val
  | [], v =>
    match v with
    | .map m => .map (g m)
    | x => x
  | .key k :: rest, v =>
    match v with
    | .map m => .map (modFirst k (fun w => modAtVal g rest w) m)
    | x => x
  | .idx i :: rest, v =>
    match v with
    | .list l => .list (modIdx (fun w => modAtVal g rest w) i l)
    | x => x

/-- Apply `g` to the map reached by `path` inside a document. -/
def modAtEnts (g : Ents → Ents) (path : List Step) (m : Ents) : Ents :=
  match path with
  | [] => g m
  | .key k :: rest => modFirst k (fun w => modAtVal g rest w) m
  | .idx _ :: _ => m

/-- Add the entry `(k0, v0)` to the map reached by `path` (appended at the
end; adding an absent key to a Go map). -/
def addAtEnts (path : List Step) (k0 : String) (v0 : Val) (m : Ents) : Ents :=
  modAtEnts (fun a => a.append (.cons k0 v0 .nil)) path m

/-- Whether the `cleanupMap` traversal of a document processes the map at
`path`: key steps follow non-removed map entries (passing the matching
path tails), index steps follow map items of lists (which are cleaned with
no field paths). -/
def procPathVal : List String → List Step → Val → Bool
  | _, [], v =>
    match v with
    | .map _ => true
    | _ => false
  | fields, .key k :: rest, v =>
    match v with
    | .map m =>
      !(removeHere fields k) &&
        (match Ents.lookup k m with
         | some w => procPathVal (nestedFor fields k) rest w
         | none => false)
    | _ => false
  | _, .idx i :: rest, v =>
    match v with
    | .list l =>
      (match l.get? i with
       | some (.map m2) => procPathVal [] rest (.map m2)
       | _ => false)
    | _ => false

/-- The processing `cleanupMap` applies to a map value found under key `k`:
recursive cleanup with the matching path tails, stringification for
`annotations`/`labels`, default-removal for `annotations`. -/
def processedMapEntry (fields : List String) (k : String) (m : Ents) : Ents :=
  let w0 := cleanupMap (nestedFor fields k) m
  let w1 := if k = "annotations" ∨ k = "labels" then stringifyMapValues w0 else w0
  if k = "annotations" then removeDefaultAnnotationValues w1 else w1

/-- A document whose ignore-list path occurs below the root. -/
def nestedIgnoredDoc : Ents := .cons "spec" (.map (.cons "apiVersion" (.str "v1") .nil)) .nil

/-- A document with a metadata map holding an ignored and an unknown key. -/
def metaDoc : Ents :=
  .cons "metadata" (.map (.cons "name" (.str "x") (.cons "foo" (.str "y") .nil))) .nil

/-- The contribution of a single entry to `cleanupMap`: `none` when the
entry is dropped, otherwise the kept value. -/
def cleanupEntry (fields : List String) (k : String) (v : Val) : Option Val :=
  if removeHere fields k then none
  else
    match v with
    | .map m =>
      let w2 := processedMapEntry fields k m
      if isEmpty w2 then none else some (.map w2)
    | .list l =>
      let w := cleanupList l
      if w.isEmpty then none else some (.list w)
    | .str s =>
      if s = "" then none
      else if k = "keep_firing_for" ∧ parseDuration s = some 0 then none
      else some (.str s)
    | other => some other

def metaAnnDoc : Ents :=
  .cons "metadata"
    (.map (.cons "annotations" (.map (.cons "x" (.str "y") .nil)) .nil)) .nil

def c7doc : Ents := .cons "annotations" (.map (.cons "x" (.str "y") .nil)) .nil

def emptyInListDoc : Ents := .cons "a" (.list (.cons (.str "") .nil)) .nil

/-- Whether a map entry `(k, v)` satisfies the restriction that
`keep_firing_for` keys hold strings. -/
def kffOK (k : String) (v : Val) : Bool :=
  if k = "keep_firing_for" then
    (match v with | .str _ => true | _ => false)
  else true

mutual

/-- Every `keep_firing_for` map entry in the tree holds a string value. -/
def kffStr : Val → Bool
  | .map m => kffStrE m
  | .list l => kffStrI l
  | _ => true

def kffStrE : Ents → Bool
  | .nil => true
  | .cons k v rest => kffOK k v && kffStr v && kffStrE rest

def kffStrI : Items → Bool
  | .nil => true
  | .cons v rest => kffStr v && kffStrI rest

end

/-- An entry that `cleanupMap` keeps unchanged regardless of its position:
a nonempty string that is not a zero `keep_firing_for` duration, under a
key that is not removed at this level. -/
def entrySurvives (fields : List String) (k : String) (v : Val) : Bool :=
  match v with
  | .str s =>
    !(removeHere fields k) && !(s == "")
      && !(k == "keep_firing_for" && parseDuration s == some 0)
  | _ => false

def allSurvive (fields : List String) : Ents → Bool
  | .nil => true
  | .cons k v rest => entrySurvives fields k v && allSurvive fields rest

/-- A document on which normalization is not idempotent: the integer
`keep_firing_for` label becomes the string `"0"` on the first pass and is
dropped as a zero duration on the second. -/
def kffIntDoc : Ents :=
  .cons "labels" (.map (.cons "keep_firing_for" (.int 0) .nil)) .nil

/-- A string-valued variant of `kffIntDoc` plus an unrelated numeric
label. -/
def kffStrDoc : Ents :=
  .cons "labels" (.map (.cons "keep_firing_for" (.str "10s")
    (.cons "n" (.int 3) .nil))) .nil

/-- No two entries of a map share a key. -/
def nodupKeys : Ents → Bool
  | .nil => true
  | .cons k _ rest => !(Ents.lookup k rest).isSome && nodupKeys rest

mutual

/-- Every map anywhere in the tree has pairwise-distinct keys. -/
def wfKeysV : Val → Bool
  | .map m => nodupKeys m && wfKeysE m
  | .list l => wfKeysI l
  | _ => true

def wfKeysE : Ents → Bool
  | .nil => true
  | .cons _ v rest => wfKeysV v && wfKeysE rest

def wfKeysI : Items → Bool
  | .nil => true
  | .cons v rest => wfKeysV v && wfKeysI rest

end

def c1Doc : PrometheusRules :=
  { apiVersion := "monitoring.coreos.com/v1", kind := "PrometheusRule"
    metadata := some []
    spec := { groups := [{ name := "a - b", interval := 60000000000
                           rules := [{ alert := "c", expr := "x > 0", forD := 0
                                       keepFiringFor := 0
                                       annotations := some [], labels := some [] }] }] } }

/-- The record `ToInternal` produces for `c1Doc`: the group and alert names
are joined with `" - "`. -/
def c1Rec : Dash0CheckRule :=
  { dataset := "default", id := "", name := "a - b - c", expression := "x > 0"
    thresholds := { degraded := 0, failed := 0 }, summary := "", description := ""
    interval := 60000000000, forD := 0, keepFiringFor := 0
    labels := some [], annotations := some [], enabled := true }

/-- `ToOpenSchema c1Rec`: the name `"a - b - c"` splits at its FIRST
`" - "`, so the group comes back as `"a"` and the alert as `"b - c"`. -/
def c1Back : PrometheusRules :=
  { apiVersion := "monitoring.coreos.com/v1", kind := "PrometheusRule"
    metadata := some []
    spec := { groups := [{ name := "a", interval := 60000000000
                           rules := [{ alert := "b - c", expr := "x > 0", forD := 0
                                       keepFiringFor := 0
                                       annotations := some [], labels := some [] }] }] } }

def c1A0 : Ents := (.cons "apiVersion" (.str "monitoring.coreos.com/v1") (.cons "kind" (.str "PrometheusRule") (.cons "metadata" (.map .nil) (.cons "spec" (.map (.cons "groups" (.list (.cons (.map (.cons "name" (.str "a - b") (.cons "interval" (.str "1m0s") (.cons "rules" (.list (.cons (.map (.cons "alert" (.str "c") (.cons "expr" (.str "x > 0") (.cons "for" (.str "0s") (.cons "annotations" (.map .nil) (.cons "labels" (.map .nil) .nil)))))) .nil)) .nil)))) .nil)) .nil)) .nil))))

def c1B0 : Ents := (.cons "apiVersion" (.str "monitoring.coreos.com/v1") (.cons "kind" (.str "PrometheusRule") (.cons "metadata" (.map .nil) (.cons "spec" (.map (.cons "groups" (.list (.cons (.map (.cons "name" (.str "a") (.cons "interval" (.str "1m0s") (.cons "rules" (.list (.cons (.map (.cons "alert" (.str "b - c") (.cons "expr" (.str "x > 0") (.cons "for" (.str "0s") (.cons "annotations" (.map .nil) (.cons "labels" (.map .nil) .nil)))))) .nil)) .nil)))) .nil)) .nil)) .nil))))

def c1A1 : Ents := (.cons "spec" (.map (.cons "groups" (.list (.cons (.map (.cons "name" (.str "a - b") (.cons "interval" (.str "1m0s") (.cons "rules" (.list (.cons (.map (.cons "alert" (.str "c") (.cons "expr" (.str "x > 0") (.cons "for" (.str "0s") .nil)))) .nil)) .nil)))) .nil)) .nil)) .nil)

def c1B1 : Ents := (.cons "spec" (.map (.cons "groups" (.list (.cons (.map (.cons "name" (.str "a") (.cons "interval" (.str "1m0s") (.cons "rules" (.list (.cons (.map (.cons "alert" (.str "b - c") (.cons "expr" (.str "x > 0") (.cons "for" (.str "0s") .nil)))) .nil)) .nil)))) .nil)) .nil)) .nil)

def c1WR : PrometheusRule :=
  { alert := "high", expr := "up == 0", forD := 0, keepFiringFor := 0
    annotations := some [("foo", "bar")], labels := some [] }

def c1WG : PrometheusRulesGroup :=
  { name := "cpu", interval := 60000000000, rules := [c1WR] }

def c1WDoc : PrometheusRules :=
  { apiVersion := "x", kind := "y", metadata := some [("name", "n")]
    spec := { groups := [c1WG] } }

/-! ## Claim theorems -/

theorem entsIndSpine {P : Ents → Prop} (h0 : P .nil)
    (h1 : ∀ k v rest, P rest → P (.cons k v rest)) : (m : Ents) → P m
  | .nil => h0
  | .cons k v rest => h1 k v rest (entsIndSpine h0 h1 rest)

theorem itemsIndSpine {P : Items → Prop} (h0 : P .nil)
    (h1 : ∀ v rest, P rest → P (.cons v rest)) : (l : Items) → P l
  | .nil => h0
  | .cons v rest => h1 v rest (itemsIndSpine h0 h1 rest)

theorem lookup_cleanup_removeHere (fields : List String) (k : String)
    (hk : removeHere fields k = true) (m : Ents) :
    Ents.lookup k (cleanupMap fields m) = none := by
  induction m using entsIndSpine with
  | h0 => rfl
  | h1 k2 v rest ih =>
    by_cases h2 : removeHere fields k2 = true
    · cases v <;> simp [cleanupMap, h2, ih]
    · have hne : (k2 == k) = false := by
        simp only [beq_eq_false_iff_ne, ne_eq]
        intro hc
        subst hc
        exact h2 hk
      simp only [Bool.not_eq_true] at h2
      cases v <;>
        simp only [cleanupMap, h2, Bool.false_eq_true, if_false] <;>
        first
        | (exact ih)
        | (split_ifs <;> simp [Ents.lookup, hne, ih])
        | (simp [Ents.lookup, hne, ih])

theorem lookup_stringify_none (m : Ents) (k : String)
    (h : Ents.lookup k m = none) :
    Ents.lookup k (stringifyMapValues m) = none := by
  induction m using entsIndSpine with
  | h0 => rfl
  | h1 k2 v rest ih =>
    simp only [Ents.lookup] at h
    rcases hbe : (k2 == k) with _ | _
    · rw [hbe] at h
      simp only [Bool.false_eq_true, if_false] at h
      cases v <;> simp [stringifyMapValues, Ents.lookup, hbe, ih h]
    · rw [hbe] at h
      simp at h

theorem lookup_rd_none (m : Ents) (k : String)
    (h : Ents.lookup k m = none) :
    Ents.lookup k (removeDefaultAnnotationValues m) = none := by
  induction m using entsIndSpine with
  | h0 => rfl
  | h1 k2 v rest ih =>
    simp only [Ents.lookup] at h
    rcases hbe : (k2 == k) with _ | _
    · rw [hbe] at h
      simp only [Bool.false_eq_true, if_false] at h
      cases v <;> simp only [removeDefaultAnnotationValues] <;>
        first
        | (split_ifs <;> simp [Ents.lookup, hbe, ih h])
        | (simp [Ents.lookup, hbe, ih h])
    · rw [hbe] at h
      simp at h

theorem lookup_cleanup_nested_removed (fields : List String) (d : Ents) (k k2 : String)
    (w : Ents)
    (hw : Ents.lookup k (cleanupMap fields d) = some (.map w))
    (hk2 : removeHere (nestedFor fields k) k2 = true) :
    Ents.lookup k2 w = none := by
  induction d using entsIndSpine with
  | h0 => cases hw
  | h1 ka v rest ih =>
    by_cases ha : removeHere fields ka = true
    · cases v <;> simp only [cleanupMap, ha, if_true] at hw <;> exact ih hw
    · have ha2 : removeHere fields ka = false := by
        simp only [Bool.not_eq_true] at ha
        exact ha
      cases v with
      | map m =>
        simp only [cleanupMap, ha2, Bool.false_eq_true, if_false] at hw
        by_cases hemp : isEmpty
            (if ka = "annotations" then
              removeDefaultAnnotationValues
                (if ka = "annotations" ∨ ka = "labels" then
                  stringifyMapValues (cleanupMap (nestedFor fields ka) m)
                 else cleanupMap (nestedFor fields ka) m)
             else
              (if ka = "annotations" ∨ ka = "labels" then
                stringifyMapValues (cleanupMap (nestedFor fields ka) m)
               else cleanupMap (nestedFor fields ka) m)) = true
        · rw [if_pos hemp] at hw
          exact ih hw
        · rw [if_neg hemp] at hw
          simp only [Ents.lookup] at hw
          rcases hbe : (ka == k) with _ | _
          · rw [hbe] at hw
            simp only [Bool.false_eq_true, if_false] at hw
            exact ih hw
          · rw [hbe] at hw
            simp only [if_true] at hw
            injection hw with hw2
            injection hw2 with hw3
            have hkka : ka = k := by
              have := (beq_iff_eq (a := ka) (b := k)).mp hbe
              exact this
            subst hkka
            have base : Ents.lookup k2 (cleanupMap (nestedFor fields ka) m) = none :=
              lookup_cleanup_removeHere _ _ hk2 m
            rw [← hw3]
            split_ifs with hc1 hc2
            · exact lookup_rd_none _ _ (lookup_stringify_none _ _ base)
            · exact absurd (Or.inl hc1) hc2
            · exact lookup_stringify_none _ _ base
            · exact base
      | str s =>
        simp only [cleanupMap, ha2, Bool.false_eq_true, if_false] at hw
        split_ifs at hw
        · exact ih hw
        · exact ih hw
        · simp only [Ents.lookup] at hw
          rcases hbe : (ka == k) with _ | _
          · rw [hbe] at hw
            simp only [Bool.false_eq_true, if_false] at hw
            exact ih hw
          · rw [hbe] at hw
            simp at hw
      | list l =>
        simp only [cleanupMap, ha2, Bool.false_eq_true, if_false] at hw
        split_ifs at hw
        · exact ih hw
        · simp only [Ents.lookup] at hw
          rcases hbe : (ka == k) with _ | _
          · rw [hbe] at hw
            simp only [Bool.false_eq_true, if_false] at hw
            exact ih hw
          · rw [hbe] at hw
            simp at hw
      | int n =>
        simp only [cleanupMap, ha2, Bool.false_eq_true, if_false, Ents.lookup] at hw
        rcases hbe : (ka == k) with _ | _
        · rw [hbe] at hw
          simp only [Bool.false_eq_true, if_false] at hw
          exact ih hw
        · rw [hbe] at hw
          simp at hw
      | flt q =>
        simp only [cleanupMap, ha2, Bool.false_eq_true, if_false, Ents.lookup] at hw
        rcases hbe : (ka == k) with _ | _
        · rw [hbe] at hw
          simp only [Bool.false_eq_true, if_false] at hw
          exact ih hw
        · rw [hbe] at hw
          simp at hw
      | bool b =>
        simp only [cleanupMap, ha2, Bool.false_eq_true, if_false, Ents.lookup] at hw
        rcases hbe : (ka == k) with _ | _
        · rw [hbe] at hw
          simp only [Bool.false_eq_true, if_false] at hw
          exact ih hw
        · rw [hbe] at hw
          simp at hw
      | null =>
        simp only [cleanupMap, ha2, Bool.false_eq_true, if_false, Ents.lookup] at hw
        rcases hbe : (ka == k) with _ | _
        · rw [hbe] at hw
          simp only [Bool.false_eq_true, if_false] at hw
          exact ih hw
        · rw [hbe] at hw
          simp at hw

/-- C6 counterexample: an ignore-list path (`apiVersion`) occurring below
the document root is NOT stripped — `NormalizeYAML` leaves the document
unchanged, contradicting removal "at whatever depth the path occurs". -/
theorem C6_nested_ignored_counterexample :
    NormalizeYAML nestedIgnoredDoc = nestedIgnoredDoc ∧
    Ents.lookup "spec" (NormalizeYAML nestedIgnoredDoc) =
      some (.map (.cons "apiVersion" (.str "v1") .nil)) :=
  ⟨rfl, rfl⟩

/-- C6 (amended): ignore-list paths are resolved from the document root
only: after normalization the root has no `apiVersion` or `kind` entry, and
if a `metadata` map survives it has none of the seven ignored sub-keys.
A missing intermediate key is a silent no-op (the normalizer is total). -/
theorem C6_ignored_fields_root_only (d : Ents) :
    Ents.lookup "apiVersion" (NormalizeYAML d) = none ∧
    Ents.lookup "kind" (NormalizeYAML d) = none ∧
    ∀ w, Ents.lookup "metadata" (NormalizeYAML d) = some (.map w) →
      ∀ k, k ∈ ["labels", "annotations", "createdAt", "updatedAt", "version",
                "dash0Extensions", "name"] → Ents.lookup k w = none := by
  refine ⟨lookup_cleanup_removeHere _ _ (by decide) d,
          lookup_cleanup_removeHere _ _ (by decide) d, ?_⟩
  intro w hw k hk
  apply lookup_cleanup_nested_removed ignoredFields d "metadata" k w hw
  fin_cases hk <;> decide

theorem C6_ignored_fields_root_only_witness :
    Ents.lookup "apiVersion" (NormalizeYAML metaDoc) = none ∧
    Ents.lookup "name" (Ents.cons "foo" (Val.str "y") Ents.nil) = none :=
  ⟨(C6_ignored_fields_root_only metaDoc).1,
   (C6_ignored_fields_root_only metaDoc).2.2 _ rfl "name" (by decide)⟩

theorem lookupStr_delete_ne (xs : List (String × String)) (k1 k2 : String) (hne : k1 ≠ k2) :
    lookupStr (deleteStr xs k2) k1 = lookupStr xs k1 := by
  induction xs with
  | nil => rfl
  | cons kv rest ih =>
    obtain ⟨ka, va⟩ := kv
    by_cases h2 : ka = k2
    · have hb1 : (ka == k1) = false := by
        simp only [beq_eq_false_iff_ne, ne_eq, h2]
        exact fun hc => hne hc.symm
      have hb2 : (ka == k2) = true := by simp [h2]
      simp [deleteStr, lookupStr, hb1, hb2, ih]
    · have hb2 : (ka == k2) = false := by simp [h2]
      by_cases h1 : ka = k1
      · have hb1 : (ka == k1) = true := by simp [h1]
        simp [deleteStr, lookupStr, hb1, hb2]
      · have hb1 : (ka == k1) = false := by simp [h1]
        simp [deleteStr, lookupStr, hb1, hb2, ih]

theorem deleteStr_of_lookup_none (xs : List (String × String)) (k : String)
    (h : lookupStr xs k = none) : deleteStr xs k = xs := by
  induction xs with
  | nil => rfl
  | cons kv rest ih =>
    obtain ⟨ka, va⟩ := kv
    by_cases hk : ka = k
    · have hb : (ka == k) = true := by simp [hk]
      simp [lookupStr, hb] at h
    · have hb : (ka == k) = false := by simp [hk]
      simp only [lookupStr, hb, if_neg, Bool.false_eq_true, if_false] at h
      simp [deleteStr, hb, ih h]

theorem strDelete_of_lookup_none (m : StrMap) (k : String)
    (h : strLookup m k = none) : strDelete m k = m := by
  rcases m with _ | xs
  · rfl
  · simp only [strLookup] at h
    simp [strDelete, deleteStr_of_lookup_none xs k h]

theorem strLookup_strDelete_ne (m : StrMap) (k1 k2 : String) (hne : k1 ≠ k2) :
    strLookup (strDelete m k2) k1 = strLookup m k1 := by
  rcases m with _ | xs
  · rfl
  · simp [strDelete, strLookup, lookupStr_delete_ne xs k1 k2 hne]

theorem lookupStr_assignList_ne (xs : List (String × String)) (k1 k2 v : String)
    (hne : k1 ≠ k2) :
    lookupStr (assignList xs k2 v) k1 = lookupStr xs k1 := by
  induction xs with
  | nil =>
    have hb : (k2 == k1) = false := by
      simp only [beq_eq_false_iff_ne, ne_eq]
      exact fun hc => hne hc.symm
    simp [assignList, lookupStr, hb]
  | cons kv rest ih =>
    obtain ⟨ka, va⟩ := kv
    by_cases h2 : ka = k2
    · have hb2 : (ka == k2) = true := by simp [h2]
      have hb1 : (ka == k1) = false := by
        simp only [beq_eq_false_iff_ne, ne_eq, h2]
        exact fun hc => hne hc.symm
      simp [assignList, lookupStr, hb1, hb2]
    · have hb2 : (ka == k2) = false := by simp [h2]
      by_cases h1 : ka = k1
      · have hb1 : (ka == k1) = true := by simp [h1]
        simp [assignList, lookupStr, hb1, hb2]
      · have hb1 : (ka == k1) = false := by simp [h1]
        simp [assignList, lookupStr, hb1, hb2, ih]

theorem strLookup_strAssign_ne (m m2 : StrMap) (k1 k2 v : String) (hne : k1 ≠ k2)
    (h : strAssign m k2 v = some m2) :
    strLookup m2 k1 = strLookup m k1 := by
  rcases m with _ | xs
  · simp [strAssign] at h
  · simp only [strAssign, Option.some.injEq] at h
    subst h
    simp [strLookup, lookupStr_assignList_ne xs k1 k2 v hne]


theorem step_preserve (m m2 : StrMap) (c : Prop) [Decidable c] (k v k1 : String)
    (h : (if c then strAssign m k v else some m) = some m2) (hne : k1 ≠ k) :
    strLookup m2 k1 = strLookup m k1 := by
  split at h
  · exact strLookup_strAssign_ne _ _ _ _ _ hne h
  · injection h with h2
    subst h2
    rfl


/-- C3: for every parseable open-schema document whose number of groups is
not exactly 1, or whose single group's number of rules is not exactly 1,
`ConvertPromYAMLToDash0CheckRule` returns one of the two unsupported-shape
errors and no record; there is no partial conversion of the first
element. -/
theorem C3_cardinality_rejection (p : PrometheusRules) (dataset : String)
    (h : p.spec.groups.length ≠ 1 ∨ ∃ g, p.spec.groups = [g] ∧ g.rules.length ≠ 1) :
    ConvertPromYAMLToDash0CheckRule p dataset = .error .onlyOneGroup ∨
    ConvertPromYAMLToDash0CheckRule p dataset = .error .onlyOneRule := by
  rcases hg2 : p.spec.groups with _ | ⟨g, gs⟩
  · left
    unfold ConvertPromYAMLToDash0CheckRule
    rw [hg2]
    rfl
  · rcases gs with _ | ⟨g2, gs2⟩
    · have hr : g.rules.length ≠ 1 := by
        rcases h with h | ⟨g3, hg3, hr3⟩
        · exact absurd (by rw [hg2]; rfl) h
        · rw [hg2] at hg3
          injection hg3 with h1 _
          rw [h1]
          exact hr3
      right
      rcases hrr : g.rules with _ | ⟨r, rs⟩
      · simp [ConvertPromYAMLToDash0CheckRule, hg2, hrr, Bind.bind, Except.bind]
      · rcases rs with _ | ⟨r2, rs2⟩
        · exact absurd (by rw [hrr]; rfl) hr
        · simp [ConvertPromYAMLToDash0CheckRule, hg2, hrr, Bind.bind, Except.bind]
    · left
      unfold ConvertPromYAMLToDash0CheckRule
      rw [hg2]
      rfl

theorem C3_cardinality_rejection_witness :
    ConvertPromYAMLToDash0CheckRule twoGroupDoc "default" = .error .onlyOneGroup ∨
    ConvertPromYAMLToDash0CheckRule twoGroupDoc "default" = .error .onlyOneRule :=
  C3_cardinality_rejection twoGroupDoc "default" (Or.inl (by decide))

/-- C2 (code bug): the spec, and the repository's own test table
(`TestConvertPromYAMLToDash0CheckRule_FloatThresholds`), require
`dash0-threshold-critical` to parse as a possibly fractional number, but
the converter uses `strconv.Atoi` and rejects the test table's own value
`"99.99"` with the invalid-critical error instead of storing 99.99 in
`thresholds.failed`. -/
theorem C2_float_threshold_rejected_by_code :
    ConvertPromYAMLToDash0CheckRule floatThresholdDoc "default" =
      .error .invalidCritical := rfl

/-- C10: `ConvertDash0JSONtoPrometheusRules` is not total: for every record
whose parsed `annotations` map is nil and which is disabled, or has a
non-empty summary or description, or a non-zero threshold, the function
assigns into the nil map and panics (modelled as `none`) instead of
returning a document or an error. -/
theorem C10_toOpenSchema_panics_on_nil_annotations (r : Dash0CheckRule)
    (hnil : r.annotations = none)
    (h : r.enabled = false ∨ r.summary ≠ "" ∨ r.description ≠ "" ∨
         r.thresholds.failed ≠ 0 ∨ r.thresholds.degraded ≠ 0) :
    ConvertDash0JSONtoPrometheusRules r = none := by
  rcases h with h | h | h | h | h
  · simp [ConvertDash0JSONtoPrometheusRules, hnil, h, strAssign]
  all_goals cases he : r.enabled <;>
    simp [ConvertDash0JSONtoPrometheusRules, hnil, he, h, strAssign]

theorem C10_toOpenSchema_panics_on_nil_annotations_witness :
    ConvertDash0JSONtoPrometheusRules nilAnnotationsRec = none :=
  C10_toOpenSchema_panics_on_nil_annotations nilAnnotationsRec rfl (Or.inl rfl)

/-- C4 counterexample: on a successful conversion the `summary` annotation
is copied into the record's summary field but NOT removed from the
returned annotations map, contradicting the claim that it is removed. -/
theorem C4_summary_stays_counterexample :
    ∃ r, ConvertPromYAMLToDash0CheckRule summaryDoc "default" = .ok r ∧
         r.summary = "s1" ∧ strLookup r.annotations "summary" = some "s1" :=
  ⟨_, rfl, rfl, rfl⟩

/-- C4 (amended): on every successful conversion, `summary` and
`description` are copied into first-class record fields but stay in the
annotations map; the returned annotations are exactly the rule's
annotations minus the three `dash0-*` keys
(`dash0-threshold-critical`, `dash0-threshold-degraded`,
`dash0-enabled`). -/
theorem C4_annotations_after_toInternal (p : PrometheusRules) (ds : String)
    (g : PrometheusRulesGroup) (rule : PrometheusRule) (r : Dash0CheckRule)
    (hg : p.spec.groups = [g]) (hr : g.rules = [rule])
    (h : ConvertPromYAMLToDash0CheckRule p ds = .ok r) :
    r.annotations =
      strDelete (strDelete (strDelete rule.annotations "dash0-threshold-critical")
        "dash0-threshold-degraded") "dash0-enabled" ∧
    r.summary = (strLookup rule.annotations "summary").getD "" ∧
    r.description = (strLookup rule.annotations "description").getD "" :=by
  simp only [ConvertPromYAMLToDash0CheckRule, hg, hr, Bind.bind, Except.bind] at h
  rcases hc : strLookup rule.annotations "dash0-threshold-critical" with _ | cv
  · simp only [hc] at h
    rcases hd : strLookup rule.annotations "dash0-threshold-degraded" with _ | dv
    · simp only [hd] at h
      rcases he : strLookup rule.annotations "dash0-enabled" with _ | ev
      · simp only [he] at h
        injection h with h2
        subst h2
        refine ⟨?_, rfl, rfl⟩
        rw [strDelete_of_lookup_none _ _ hc, strDelete_of_lookup_none _ _ hd,
          strDelete_of_lookup_none _ _ he]
      · simp only [he] at h
        rcases hb : goParseBool ev with _ | b
        · simp only [hb] at h
          cases h
        · simp only [hb] at h
          injection h with h2
          subst h2
          refine ⟨?_, rfl, rfl⟩
          rw [strDelete_of_lookup_none _ _ hc, strDelete_of_lookup_none _ _ hd]
    · simp only [hd] at h
      rcases ha : goAtoi dv with _ | n
      · simp only [ha] at h
        cases h
      · simp only [ha] at h
        rcases he : strLookup (strDelete rule.annotations "dash0-threshold-degraded") "dash0-enabled" with _ | ev
        · simp only [he] at h
          injection h with h2
          subst h2
          refine ⟨?_, rfl, rfl⟩
          rw [strDelete_of_lookup_none _ _ hc, strDelete_of_lookup_none _ _ he]
        · simp only [he] at h
          rcases hb : goParseBool ev with _ | b
          · simp only [hb] at h
            cases h
          · simp only [hb] at h
            injection h with h2
            subst h2
            refine ⟨?_, rfl, rfl⟩
            rw [strDelete_of_lookup_none _ _ hc]
  · simp only [hc] at h
    rcases ha0 : goAtoi cv with _ | n0
    · simp only [ha0] at h
      cases h
    · simp only [ha0] at h
      rcases hd : strLookup (strDelete rule.annotations "dash0-threshold-critical") "dash0-threshold-degraded" with _ | dv
      · simp only [hd] at h
        rcases he : strLookup (strDelete rule.annotations "dash0-threshold-critical") "dash0-enabled" with _ | ev
        · simp only [he] at h
          injection h with h2
          subst h2
          refine ⟨?_, rfl, rfl⟩
          rw [strDelete_of_lookup_none _ _ hd, strDelete_of_lookup_none _ _ he]
        · simp only [he] at h
          rcases hb : goParseBool ev with _ | b
          · simp only [hb] at h
            cases h
          · simp only [hb] at h
            injection h with h2
            subst h2
            refine ⟨?_, rfl, rfl⟩
            rw [strDelete_of_lookup_none _ _ hd]
      · simp only [hd] at h
        rcases ha : goAtoi dv with _ | n
        · simp only [ha] at h
          cases h
        · simp only [ha] at h
          rcases he : strLookup (strDelete (strDelete rule.annotations "dash0-threshold-critical") "dash0-threshold-degraded") "dash0-enabled" with _ | ev
          · simp only [he] at h
            injection h with h2
            subst h2
            refine ⟨?_, rfl, rfl⟩
            rw [strDelete_of_lookup_none _ _ he]
          · simp only [he] at h
            rcases hb : goParseBool ev with _ | b
            · simp only [hb] at h
              cases h
            · simp only [hb] at h
              injection h with h2
              subst h2
              exact ⟨rfl, rfl, rfl⟩

theorem C4_annotations_after_toInternal_witness :
    summaryRec.annotations =
      strDelete (strDelete (strDelete summaryRule.annotations "dash0-threshold-critical")
        "dash0-threshold-degraded") "dash0-enabled" ∧
    summaryRec.summary = (strLookup summaryRule.annotations "summary").getD "" ∧
    summaryRec.description = (strLookup summaryRule.annotations "description").getD "" :=
  C4_annotations_after_toInternal summaryDoc "default" summaryGroup summaryRule summaryRec
    rfl rfl rfl

/-- C5 counterexample: a record that is enabled but whose residual
annotations already contain `dash0-enabled` yields an output document that
carries a `dash0-enabled` annotation although `enabled` is true,
contradicting the claim that none appears when `enabled == true`. -/
theorem C5_enabled_passthrough_counterexample :
    enabledPassthroughRec.enabled = true ∧
    ∃ q g1 r1, ConvertDash0JSONtoPrometheusRules enabledPassthroughRec = some q ∧
      q.spec.groups = [g1] ∧ g1.rules = [r1] ∧
      strLookup r1.annotations "dash0-enabled" = some "false" :=
  ⟨rfl, _, _, _, rfl, rfl, rfl, rfl⟩

/-- C5 (amended): when a successful forward conversion finds no
`dash0-enabled` annotation, the record's `enabled` field is true; and the
reverse conversion never injects a `dash0-enabled` annotation for an
enabled record — the output document carries one only if it was already in
the record's residual annotations, so when those lack the key no
`dash0-enabled` annotation appears in the output. -/
theorem C5_enabled_default_and_injection :
    (∀ (p : PrometheusRules) (ds : String) (g : PrometheusRulesGroup)
       (rule : PrometheusRule) (r : Dash0CheckRule),
       p.spec.groups = [g] → g.rules = [rule] →
       strLookup rule.annotations "dash0-enabled" = none →
       ConvertPromYAMLToDash0CheckRule p ds = .ok r → r.enabled = true) ∧
    (∀ (rcd : Dash0CheckRule) (q : PrometheusRules) (g1 : PrometheusRulesGroup)
       (r1 : PrometheusRule),
       rcd.enabled = true →
       strLookup rcd.annotations "dash0-enabled" = none →
       ConvertDash0JSONtoPrometheusRules rcd = some q →
       q.spec.groups = [g1] → g1.rules = [r1] →
       strLookup r1.annotations "dash0-enabled" = none) := by
  constructor
  · intro p ds g rule r hg hr hen h
    simp only [ConvertPromYAMLToDash0CheckRule, hg, hr, Bind.bind, Except.bind] at h
    rcases hc : strLookup rule.annotations "dash0-threshold-critical" with _ | cv
    · simp only [hc] at h
      rcases hd : strLookup rule.annotations "dash0-threshold-degraded" with _ | dv
      · simp only [hd, hen] at h
        injection h with h2
        subst h2
        rfl
      · simp only [hd] at h
        rcases ha : goAtoi dv with _ | n
        · simp only [ha] at h
          cases h
        · simp only [ha] at h
          rw [strLookup_strDelete_ne _ _ _ (by decide), hen] at h
          injection h with h2
          subst h2
          rfl
    · simp only [hc] at h
      rcases ha0 : goAtoi cv with _ | n0
      · simp only [ha0] at h
        cases h
      · simp only [ha0] at h
        rcases hd : strLookup (strDelete rule.annotations "dash0-threshold-critical") "dash0-threshold-degraded" with _ | dv
        · simp only [hd] at h
          rw [strLookup_strDelete_ne _ _ _ (by decide), hen] at h
          injection h with h2
          subst h2
          rfl
        · simp only [hd] at h
          rcases ha : goAtoi dv with _ | n
          · simp only [ha] at h
            cases h
          · simp only [ha] at h
            rw [strLookup_strDelete_ne _ _ _ (by decide),
              strLookup_strDelete_ne _ _ _ (by decide), hen] at h
            injection h with h2
            subst h2
            rfl
  · intro rcd q g1 r1 hen hl hconv hg1 hr1
    simp only [ConvertDash0JSONtoPrometheusRules] at hconv
    rw [Option.bind_eq_some] at hconv
    obtain ⟨a1, h1, hconv⟩ := hconv
    rw [Option.bind_eq_some] at hconv
    obtain ⟨a2, h2, hconv⟩ := hconv
    rw [Option.bind_eq_some] at hconv
    obtain ⟨a3, h3, hconv⟩ := hconv
    rw [Option.bind_eq_some] at hconv
    obtain ⟨a4, h4, hconv⟩ := hconv
    rw [Option.bind_eq_some] at hconv
    obtain ⟨a5, h5, hconv⟩ := hconv
    rw [hen] at h1
    simp only [Bool.not_true, Bool.false_eq_true, if_false, Option.some.injEq] at h1
    subst h1
    have l2 : strLookup a2 "dash0-enabled" = strLookup rcd.annotations "dash0-enabled" :=
      step_preserve _ _ _ _ _ _ h2 (by decide)
    have l3 : strLookup a3 "dash0-enabled" = strLookup a2 "dash0-enabled" :=
      step_preserve _ _ _ _ _ _ h3 (by decide)
    have l4 : strLookup a4 "dash0-enabled" = strLookup a3 "dash0-enabled" :=
      step_preserve _ _ _ _ _ _ h4 (by decide)
    have l5 : strLookup a5 "dash0-enabled" = strLookup a4 "dash0-enabled" :=
      step_preserve _ _ _ _ _ _ h5 (by decide)
    injection hconv with h6
    subst h6
    simp only at hg1
    injection hg1 with h7
    subst h7
    simp only at hr1
    injection hr1 with h8
    subst h8
    simp only
    rw [l5, l4, l3, l2, hl]

theorem C5_enabled_default_and_injection_witness :
    summaryRec.enabled = true ∧
    strLookup noEnabledOutRule.annotations "dash0-enabled" = none :=
  ⟨C5_enabled_default_and_injection.1 summaryDoc "default" summaryGroup summaryRule summaryRec
     rfl rfl rfl rfl,
   C5_enabled_default_and_injection.2 noEnabledRec noEnabledOut noEnabledOutGroup
     noEnabledOutRule rfl rfl rfl rfl rfl⟩


theorem Ents.append_nil (m : Ents) : m.append .nil = m := by
  induction m using entsIndSpine with
  | h0 => rfl
  | h1 k v rest ih => simp [Ents.append, ih]

theorem cleanupMap_append (fields : List String) (a b : Ents) :
    cleanupMap fields (a.append b) =
      (cleanupMap fields a).append (cleanupMap fields b) := by
  induction a using entsIndSpine with
  | h0 => rfl
  | h1 k v rest ih =>
    cases v <;>
      simp only [Ents.append, cleanupMap] <;>
      split_ifs <;>
      simp [Ents.append, ih]

theorem stringifyMapValues_append (a b : Ents) :
    stringifyMapValues (a.append b) =
      (stringifyMapValues a).append (stringifyMapValues b) := by
  induction a using entsIndSpine with
  | h0 => rfl
  | h1 k v rest ih => cases v <;> simp [stringifyMapValues, Ents.append, ih]

theorem removeDefaultAnnotationValues_append (a b : Ents) :
    removeDefaultAnnotationValues (a.append b) =
      (removeDefaultAnnotationValues a).append (removeDefaultAnnotationValues b) := by
  induction a using entsIndSpine with
  | h0 => rfl
  | h1 k v rest ih =>
    cases v <;>
      simp only [Ents.append, removeDefaultAnnotationValues] <;>
      (try split_ifs) <;>
      simp [Ents.append, ih]

theorem isEmpty_append (a b : Ents) :
    isEmpty (a.append b) = (isEmpty a && isEmpty b) := by
  induction a using entsIndSpine with
  | h0 => rfl
  | h1 k v rest ih =>
    cases v <;> simp [Ents.append, isEmpty, ih, Bool.and_assoc]

theorem cleanupMap_cons (fields : List String) (k : String) (v : Val) (rest : Ents) :
    cleanupMap fields (.cons k v rest) =
      match cleanupEntry fields k v with
      | none => cleanupMap fields rest
      | some v2 => .cons k v2 (cleanupMap fields rest) := by
  cases v <;>
    simp only [cleanupMap, cleanupEntry, processedMapEntry] <;>
    split_ifs <;>
    rfl

theorem modFirst_of_lookup_none (k : String) (f : Val → Val) :
    ∀ m : Ents, Ents.lookup k m = none → modFirst k f m = m := by
  intro m
  induction m using entsIndSpine with
  | h0 => intro _; rfl
  | h1 k2 v r ih =>
    intro h
    rw [Ents.lookup] at h
    by_cases hk : k2 = k
    · simp [hk] at h
    · simp only [beq_iff_eq, hk, if_false] at h
      rw [modFirst, if_neg hk, ih h]

theorem cleanup_modFirst_congr (fields : List String) (k : String) (f : Val → Val) :
    ∀ (m : Ents) (w : Val), Ents.lookup k m = some w →
      cleanupEntry fields k (f w) = cleanupEntry fields k w →
      cleanupMap fields (modFirst k f m) = cleanupMap fields m := by
  intro m
  induction m using entsIndSpine with
  | h0 => intro w h _; simp [Ents.lookup] at h
  | h1 k2 v r ih =>
    intro w hlk hf
    by_cases hk : k2 = k
    · subst hk
      rw [Ents.lookup] at hlk
      simp only [beq_self_eq_true, if_true, Option.some.injEq] at hlk
      subst hlk
      rw [modFirst, if_pos rfl]
      rw [cleanupMap_cons, cleanupMap_cons, hf]
    · rw [Ents.lookup] at hlk
      simp only [beq_iff_eq, hk, if_false] at hlk
      rw [modFirst, if_neg hk]
      rw [cleanupMap_cons, cleanupMap_cons, ih w hlk hf]

theorem modAtVal_map (g : Ents → Ents) (L : List Step) (m : Ents) :
    modAtVal g L (.map m) = .map (modAtEnts g L m) := by
  cases L with
  | nil => rfl
  | cons st r => cases st <;> rfl

theorem cleanupList_modIdx_congr (f : Val → Val) (m2 m3 : Ents)
    (hfm : f (.map m2) = .map m3)
    (h3 : cleanupMap [] m3 = cleanupMap [] m2) :
    ∀ (i : Nat) (l : Items), Items.get? l i = some (.map m2) →
      cleanupList (modIdx f i l) = cleanupList l := by
  intro i
  induction i with
  | zero =>
    intro l hl
    cases l with
    | nil => simp [Items.get?] at hl
    | cons v r =>
      simp only [Items.get?, Option.some.injEq] at hl
      subst hl
      rw [modIdx, hfm]
      simp [cleanupList, h3]
  | succ i ihi =>
    intro l hl
    cases l with
    | nil => simp [Items.get?] at hl
    | cons v r =>
      simp only [Items.get?] at hl
      rw [modIdx]
      cases v <;> simp [cleanupList, ihi r hl]

theorem procPathVal_shape (fields : List String) (path : List Step) (v : Val)
    (h : procPathVal fields path v = true) :
    (∃ m, v = Val.map m) ∨ (∃ l, v = Val.list l) := by
  cases path with
  | nil => cases v <;> simp [procPathVal] at h ⊢
  | cons st r => cases st <;> cases v <;> simp [procPathVal] at h ⊢

theorem cleanup_modAt_bounded (g : Ents → Ents)
    (hg : ∀ (fields2 : List String) (a : Ents),
      cleanupMap fields2 (g a) = cleanupMap fields2 a) :
    ∀ (n : Nat) (path : List Step), path.length ≤ n →
      ∀ (fields : List String) (m : Ents),
        procPathVal fields path (.map m) = true →
        cleanupMap fields (modAtEnts g path m) = cleanupMap fields m := by
  intro n
  induction n with
  | zero =>
    intro path hlen fields m _
    rw [List.length_eq_zero.mp (Nat.le_zero.mp hlen)]
    exact hg fields m
  | succ n ihn =>
    intro path hlen fields m hp
    cases path with
    | nil => exact hg fields m
    | cons st rest =>
      cases st with
      | idx i => simp [procPathVal] at hp
      | key k =>
        simp only [procPathVal] at hp
        rw [Bool.and_eq_true] at hp
        obtain ⟨-, hp⟩ := hp
        cases hlk : Ents.lookup k m with
        | none => rw [hlk] at hp; exact absurd hp (by simp)
        | some w =>
          rw [hlk] at hp
          have hlen2 : rest.length ≤ n := by
            simp only [List.length_cons] at hlen; omega
          show cleanupMap fields (modFirst k (fun u => modAtVal g rest u) m) =
            cleanupMap fields m
          refine cleanup_modFirst_congr fields k (fun u => modAtVal g rest u) m w hlk ?_
          cases w
          case map a =>
            have hca := ihn rest hlen2 (nestedFor fields k) a hp
            show cleanupEntry fields k (modAtVal g rest (.map a)) =
              cleanupEntry fields k (.map a)
            rw [modAtVal_map]
            simp [cleanupEntry, processedMapEntry, hca]
          case list l =>
            cases rest with
            | nil => simp [procPathVal] at hp
            | cons st2 rest2 =>
              cases st2 with
              | key k3 => simp [procPathVal] at hp
              | idx i =>
                simp only [procPathVal] at hp
                cases hgl : Items.get? l i with
                | none => rw [hgl] at hp; exact absurd hp (by simp)
                | some w2 =>
                  rw [hgl] at hp
                  cases w2
                  case map m2 =>
                    have hlen3 : rest2.length ≤ n := by
                      simp only [List.length_cons] at hlen; omega
                    have h3 := ihn rest2 hlen3 [] m2 hp
                    have hcl := cleanupList_modIdx_congr
                      (fun u => modAtVal g rest2 u) m2 (modAtEnts g rest2 m2)
                      (modAtVal_map g rest2 m2) h3 i l hgl
                    show cleanupEntry fields k
                        (.list (modIdx (fun u => modAtVal g rest2 u) i l)) =
                      cleanupEntry fields k (.list l)
                    simp [cleanupEntry, hcl]
                  all_goals simp at hp
          all_goals
            rcases procPathVal_shape _ _ _ hp with ⟨m2, h2⟩ | ⟨l2, h2⟩ <;> simp at h2

theorem cleanup_modAt (g : Ents → Ents)
    (hg : ∀ (fields2 : List String) (a : Ents),
      cleanupMap fields2 (g a) = cleanupMap fields2 a)
    (path : List Step) (fields : List String) (m : Ents)
    (hp : procPathVal fields path (.map m) = true) :
    cleanupMap fields (modAtEnts g path m) = cleanupMap fields m :=
  cleanup_modAt_bounded g hg path.length path (le_refl _) fields m hp

theorem modAtVal_append_key (g : Ents → Ents) (k0 : String) :
    ∀ (r : List Step) (w : Val),
      modAtVal g (r ++ [Step.key k0]) w =
        modAtVal (fun a => modFirst k0 (fun u => modAtVal g [] u) a) r w := by
  intro r
  induction r with
  | nil => intro w; cases w <;> rfl
  | cons st r2 ih =>
    intro w
    have hfun : (fun u => modAtVal g (r2 ++ [Step.key k0]) u) =
        (fun u => modAtVal (fun a => modFirst k0 (fun u2 => modAtVal g [] u2) a) r2 u) :=
      funext ih
    cases st <;> cases w <;> simp only [List.cons_append, List.append_eq, modAtVal, hfun]

theorem modAtEnts_append_key (g : Ents → Ents) (k0 : String)
    (p : List Step) (m : Ents) :
    modAtEnts g (p ++ [Step.key k0]) m =
      modAtEnts (fun a => modFirst k0 (fun u => modAtVal g [] u) a) p m := by
  cases p with
  | nil => rfl
  | cons st r =>
    have hfun : (fun u => modAtVal g (r ++ [Step.key k0]) u) =
        (fun u => modAtVal (fun a => modFirst k0 (fun u2 => modAtVal g [] u2) a) r u) :=
      funext (modAtVal_append_key g k0 r)
    cases st <;> simp only [List.cons_append, List.append_eq, modAtEnts, hfun]

theorem procPathVal_append_key (k0 : String) :
    ∀ (p : List Step) (fields : List String) (v : Val),
      procPathVal fields (p ++ [Step.key k0]) v = true →
      procPathVal fields p v = true := by
  intro p
  induction p with
  | nil =>
    intro fields v h
    cases v <;> simp [procPathVal] at h ⊢
  | cons st r ih =>
    intro fields v h
    cases st with
    | key k =>
      cases v
      case map m =>
        simp only [List.cons_append, procPathVal] at h ⊢
        rw [Bool.and_eq_true] at h ⊢
        refine ⟨h.1, ?_⟩
        have h2 := h.2
        cases hlk : Ents.lookup k m with
        | none => rw [hlk] at h2; simp at h2
        | some w => rw [hlk] at h2; exact ih _ _ h2
      all_goals simp [procPathVal] at h
    | idx i =>
      cases v
      case list l =>
        simp only [List.cons_append, procPathVal] at h ⊢
        cases hgl : Items.get? l i with
        | none => rw [hgl] at h; simp at h
        | some w2 =>
          rw [hgl] at h
          cases w2
          case map m2 => exact ih _ _ h
          all_goals simp at h
      all_goals simp [procPathVal] at h

theorem cleanup_modAt_ann (g : Ents → Ents)
    (hgann : ∀ (fields2 : List String) (a : Ents),
      removeDefaultAnnotationValues (stringifyMapValues (cleanupMap fields2 (g a))) =
        removeDefaultAnnotationValues (stringifyMapValues (cleanupMap fields2 a)))
    (p : List Step) (fields : List String) (m : Ents)
    (hp : procPathVal fields (p ++ [Step.key "annotations"]) (.map m) = true) :
    cleanupMap fields (modAtEnts g (p ++ [Step.key "annotations"]) m) =
      cleanupMap fields m := by
  rw [modAtEnts_append_key]
  have hg2 : ∀ (fields2 : List String) (a : Ents),
      cleanupMap fields2 (modFirst "annotations" (fun u => modAtVal g [] u) a) =
        cleanupMap fields2 a := by
    intro fields2 a
    cases hlk : Ents.lookup "annotations" a with
    | none => rw [modFirst_of_lookup_none _ _ a hlk]
    | some w =>
      refine cleanup_modFirst_congr fields2 "annotations" _ a w hlk ?_
      cases w
      case map b =>
        show cleanupEntry fields2 "annotations" (.map (g b)) =
          cleanupEntry fields2 "annotations" (.map b)
        simp [cleanupEntry, processedMapEntry, hgann]
      all_goals rfl
  exact cleanup_modAt (fun a => modFirst "annotations" (fun u => modAtVal g [] u) a)
    hg2 p fields m (procPathVal_append_key "annotations" p fields (.map m) hp)

theorem cleanup_str_ent (fields2 : List String) (k0 s0 : String)
    (hs : ¬s0 = "") (hk : ¬(k0 = "keep_firing_for" ∧ parseDuration s0 = some 0)) :
    cleanupMap fields2 (.cons k0 (.str s0) .nil) =
      if removeHere fields2 k0 then .nil else .cons k0 (.str s0) .nil := by
  simp [cleanupMap, hs, hk]

theorem cleanup_append_default (fields2 : List String) (a : Ents) (k0 s0 : String)
    (hdef : ((k0 = "dash0-threshold-critical" ∨ k0 = "dash0-threshold-degraded") ∧ s0 = "0")
      ∨ (k0 = "dash0-enabled" ∧ s0 = "true")) :
    removeDefaultAnnotationValues (stringifyMapValues
        (cleanupMap fields2 (a.append (.cons k0 (.str s0) .nil)))) =
      removeDefaultAnnotationValues (stringifyMapValues (cleanupMap fields2 a)) := by
  rw [cleanupMap_append]
  have hs : ¬s0 = "" := by
    rcases hdef with ⟨-, h⟩ | ⟨-, h⟩ <;> subst h <;> decide
  have hk : ¬(k0 = "keep_firing_for" ∧ parseDuration s0 = some 0) := by
    rcases hdef with ⟨h, -⟩ | ⟨h, -⟩
    · rcases h with h | h <;> subst h <;> simp
    · subst h; simp
  rw [cleanup_str_ent fields2 k0 s0 hs hk]
  by_cases hrem : removeHere fields2 k0
  · rw [if_pos hrem, Ents.append_nil]
  · rw [if_neg hrem, stringifyMapValues_append, removeDefaultAnnotationValues_append]
    have hnil : removeDefaultAnnotationValues
        (stringifyMapValues (Ents.cons k0 (.str s0) .nil)) = .nil := by
      rcases hdef with ⟨h, h2⟩ | ⟨h, h2⟩
      · subst h2
        rcases h with h | h <;> subst h <;> rfl
      · subst h; subst h2; rfl
    rw [hnil, Ents.append_nil]

theorem cleanup_empty_ent (fields2 : List String) (k0 : String) (v0 : Val)
    (h : v0 = .str "" ∨ v0 = .list .nil ∨ v0 = .map .nil) :
    cleanupMap fields2 (.cons k0 v0 .nil) = .nil := by
  rcases h with h | h | h <;> subst h <;>
    simp [cleanupMap, cleanupList, stringifyMapValues,
      removeDefaultAnnotationValues, isEmpty, Items.isEmpty]

theorem cleanup_append_empty (fields2 : List String) (a : Ents) (k0 : String) (v0 : Val)
    (h : v0 = .str "" ∨ v0 = .list .nil ∨ v0 = .map .nil) :
    cleanupMap fields2 (a.append (.cons k0 v0 .nil)) = cleanupMap fields2 a := by
  rw [cleanupMap_append, cleanup_empty_ent fields2 k0 v0 h, Ents.append_nil]

theorem valSize_pos (v : Val) : 1 ≤ valSize v := by
  cases v <;> simp [valSize]

theorem entriesSize_pos (m : Ents) : 1 ≤ entriesSize m := by
  cases m <;> simp [entriesSize]

theorem lookup_cleanup_none (fields : List String) (k : String) :
    ∀ m : Ents, Ents.lookup k m = none → Ents.lookup k (cleanupMap fields m) = none := by
  intro m
  induction m using entsIndSpine with
  | h0 => intro _; rfl
  | h1 k2 v r ih =>
    intro h
    rw [Ents.lookup] at h
    rcases hbe : (k2 == k) with _ | _
    · rw [hbe] at h
      simp only [Bool.false_eq_true, if_false] at h
      rw [cleanupMap_cons]
      cases cleanupEntry fields k2 v with
      | none => exact ih h
      | some v2 => simp [Ents.lookup, hbe, ih h]
    · rw [hbe] at h; simp at h

theorem lookup_some_mem (k : String) (v : Val) :
    ∀ m : Ents, Ents.lookup k m = some v → (k, v) ∈ m.toList := by
  intro m
  induction m using entsIndSpine with
  | h0 => intro h; cases h
  | h1 k2 v2 r ih =>
    intro h
    rw [Ents.lookup] at h
    rcases hbe : (k2 == k) with _ | _
    · rw [hbe] at h
      simp only [Bool.false_eq_true, if_false] at h
      rw [Ents.toList]
      exact List.mem_cons_of_mem _ (ih h)
    · rw [hbe] at h
      simp only [if_true, Option.some.injEq] at h
      subst h
      have hk : k2 = k := by simpa using hbe
      subst hk
      rw [Ents.toList]
      exact List.mem_cons_self _ _

theorem lookup_none_of_not_mem (k : String) :
    ∀ m : Ents, k ∉ m.keys → Ents.lookup k m = none := by
  intro m
  induction m using entsIndSpine with
  | h0 => intro _; rfl
  | h1 k2 v r ih =>
    intro h
    rw [Ents.keys] at h
    rw [List.mem_cons] at h
    push_neg at h
    rw [Ents.lookup]
    have hbe : (k2 == k) = false := by
      simp only [beq_eq_false_iff_ne]
      exact fun he => h.1 (he ▸ rfl)
    rw [hbe]
    simp only [Bool.false_eq_true, if_false]
    exact ih h.2

theorem lookup_modFirst_self (k : String) (f : Val → Val) :
    ∀ (m : Ents) (w : Val), Ents.lookup k m = some w →
      Ents.lookup k (modFirst k f m) = some (f w) := by
  intro m
  induction m using entsIndSpine with
  | h0 => intro w h; cases h
  | h1 k2 v r ih =>
    intro w h
    rw [Ents.lookup] at h
    by_cases hk : k2 = k
    · subst hk
      simp only [beq_self_eq_true, if_true, Option.some.injEq] at h
      subst h
      rw [modFirst, if_pos rfl, Ents.lookup]
      simp
    · have hbe : (k2 == k) = false := by simp [hk]
      rw [hbe] at h
      simp only [Bool.false_eq_true, if_false] at h
      rw [modFirst, if_neg hk, Ents.lookup, hbe]
      simp only [Bool.false_eq_true, if_false]
      exact ih w h

theorem modFirst_keys (k : String) (f : Val → Val) :
    ∀ m : Ents, (modFirst k f m).keys = m.keys := by
  intro m
  induction m using entsIndSpine with
  | h0 => rfl
  | h1 k2 v r ih => rw [modFirst]; split_ifs <;> simp [Ents.keys, ih]

theorem lookup_cleanup_char (fields : List String) (k : String) :
    ∀ (m : Ents) (v : Val), Ents.lookup k m = some v → m.keys.Nodup →
      Ents.lookup k (cleanupMap fields m) = cleanupEntry fields k v := by
  intro m
  induction m using entsIndSpine with
  | h0 => intro v h _; cases h
  | h1 k2 v2 r ih =>
    intro v hlk hnd
    rw [Ents.keys, List.nodup_cons] at hnd
    rw [Ents.lookup] at hlk
    rcases hbe : (k2 == k) with _ | _
    · rw [hbe] at hlk
      simp only [Bool.false_eq_true, if_false] at hlk
      rw [cleanupMap_cons]
      cases cleanupEntry fields k2 v2 with
      | none => exact ih v hlk hnd.2
      | some u =>
        rw [Ents.lookup, hbe]
        simp only [Bool.false_eq_true, if_false]
        exact ih v hlk hnd.2
    · rw [hbe] at hlk
      simp only [if_true, Option.some.injEq] at hlk
      subst hlk
      have hk : k2 = k := by simpa using hbe
      subst hk
      rw [cleanupMap_cons]
      cases hce : cleanupEntry fields k2 v2 with
      | none =>
        exact lookup_cleanup_none fields k2 r (lookup_none_of_not_mem k2 r hnd.1)
      | some u => simp [Ents.lookup]

theorem lookup_normNum (k : String) :
    ∀ m : Ents, Ents.lookup k (normNumEntries m) =
      (Ents.lookup k m).map normalizeNumericTypes := by
  intro m
  induction m using entsIndSpine with
  | h0 => rfl
  | h1 k2 v r ih =>
    rw [normNumEntries, Ents.lookup, Ents.lookup]
    rcases hbe : (k2 == k) with _ | _ <;> simp [hbe, ih]

theorem lookup_append_left_none (k : String) (b : Ents) :
    ∀ a : Ents, Ents.lookup k a = none →
      Ents.lookup k (a.append b) = Ents.lookup k b := by
  intro a
  induction a using entsIndSpine with
  | h0 => intro _; rfl
  | h1 k2 v r ih =>
    intro h
    rw [Ents.lookup] at h
    rcases hbe : (k2 == k) with _ | _
    · rw [hbe] at h
      simp only [Bool.false_eq_true, if_false] at h
      rw [Ents.append, Ents.lookup, hbe]
      simp only [Bool.false_eq_true, if_false]
      exact ih h
    · rw [hbe] at h; simp at h

theorem normNumEntries_append (a b : Ents) :
    normNumEntries (a.append b) = (normNumEntries a).append (normNumEntries b) := by
  induction a using entsIndSpine with
  | h0 => rfl
  | h1 k v r ih => simp [Ents.append, normNumEntries, ih]

theorem all_false_of_mem {α : Type} (l : List α) (p : α → Bool) (x : α)
    (hx : x ∈ l) (hp : p x = false) : l.all p = false := by
  cases h : l.all p
  · rfl
  · have h2 := List.all_eq_true.mp h x hx
    rw [hp] at h2
    exact absurd h2 (by simp)

theorem cmpEqualF_map_false (fuel : Nat) (A B : Ents) (k : String) (v : Val)
    (hmem : (k, v) ∈ A.toList)
    (hval : (match Ents.lookup k B with
      | some w => cmpEqualF fuel v w
      | none => false) = false) :
    cmpEqualF (fuel + 1) (.map A) (.map B) = false := by
  show (A.toList.all (fun kv =>
      match Ents.lookup kv.1 B with
      | some w => cmpEqualF fuel kv.2 w
      | none => false)
    && B.toList.all (fun kv => (Ents.lookup kv.1 A).isSome)) = false
  rw [all_false_of_mem A.toList (fun kv =>
      match Ents.lookup kv.1 B with
      | some w => cmpEqualF fuel kv.2 w
      | none => false) (k, v) hmem hval]
  simp

/-- Test statement of the crit-50 falsity core. -/

theorem crit50_breaks_equivalence (d a : Ents)
    (hlk : Ents.lookup "annotations" d = some (.map a))
    (habs : Ents.lookup "dash0-threshold-critical" a = none)
    (hnd : d.keys.Nodup) :
    ResourceYAMLEquivalent
      (addAtEnts [Step.key "annotations"] "dash0-threshold-critical" (.str "50") d)
      d = false := by
  set e : Ents := Ents.cons "dash0-threshold-critical" (.str "50") .nil with he
  set pme0 : Ents :=
    removeDefaultAnnotationValues (stringifyMapValues (cleanupMap [] a)) with hpme0
  -- the annotations processing with the entry added
  have hpme_def : ∀ x : Ents, processedMapEntry ignoredFields "annotations" x =
      removeDefaultAnnotationValues (stringifyMapValues (cleanupMap [] x)) :=
    fun _ => rfl
  have hpme' : processedMapEntry ignoredFields "annotations" (a.append e) =
      pme0.append e := by
    rw [hpme_def, cleanupMap_append,
      show cleanupMap [] e = e from rfl,
      stringifyMapValues_append, removeDefaultAnnotationValues_append,
      show removeDefaultAnnotationValues (stringifyMapValues e) = e from rfl]
  -- the modified document and its normalization at the annotations key
  set d' : Ents :=
    addAtEnts [Step.key "annotations"] "dash0-threshold-critical" (.str "50") d with hd'
  have hlk' : Ents.lookup "annotations" d' = some (.map (a.append e)) := by
    rw [hd']
    show Ents.lookup "annotations"
      (modFirst "annotations" (fun u => modAtVal (fun b => b.append e) [] u) d) = _
    rw [lookup_modFirst_self "annotations" _ d (.map a) hlk]
    rfl
  have hnd' : d'.keys.Nodup := by
    rw [hd']
    show (modFirst "annotations" _ d).keys.Nodup
    rw [modFirst_keys]
    exact hnd
  have hrem : removeHere ignoredFields "annotations" = false := by decide
  have hNd' : Ents.lookup "annotations" (NormalizeYAML d') = some (.map (pme0.append e)) := by
    rw [show NormalizeYAML d' = cleanupMap ignoredFields d' from rfl]
    rw [lookup_cleanup_char ignoredFields "annotations" d' (.map (a.append e)) hlk' hnd']
    rw [show cleanupEntry ignoredFields "annotations" (.map (a.append e)) =
        (if isEmpty (processedMapEntry ignoredFields "annotations" (a.append e))
         then none
         else some (.map (processedMapEntry ignoredFields "annotations" (a.append e))))
      from by rw [cleanupEntry, if_neg (by rw [hrem]; simp)]]
    rw [hpme', isEmpty_append, show isEmpty e = false from rfl, Bool.and_false]
    simp
  have hNd : Ents.lookup "annotations" (NormalizeYAML d) =
      if isEmpty pme0 then none else some (.map pme0) := by
    rw [show NormalizeYAML d = cleanupMap ignoredFields d from rfl]
    rw [lookup_cleanup_char ignoredFields "annotations" d (.map a) hlk hnd]
    rw [cleanupEntry, if_neg (by rw [hrem]; simp)]
    rw [hpme_def]
  -- the missing critical entry on the unmodified side
  have hcritn : Ents.lookup "dash0-threshold-critical" pme0 = none := by
    rw [hpme0]
    exact lookup_rd_none _ _ (lookup_stringify_none _ _ (lookup_cleanup_none [] _ a habs))
  have hlkA : Ents.lookup "annotations" (normNumEntries (NormalizeYAML d')) =
      some (.map (normNumEntries (pme0.append e))) := by
    rw [lookup_normNum, hNd']
    rfl
  have hx0 := lookup_some_mem "annotations"
    (Val.map (normNumEntries (pme0.append e))) _ hlkA
  have hcrity : Ents.lookup "dash0-threshold-critical" (normNumEntries (pme0.append e)) =
      some (.str "50") := by
    rw [lookup_normNum, lookup_append_left_none "dash0-threshold-critical" e pme0 hcritn]
    rfl
  have hy0 := lookup_some_mem _ _ _ hcrity
  have hcritB : Ents.lookup "dash0-threshold-critical" (normNumEntries pme0) = none := by
    rw [lookup_normNum, hcritn]
    rfl
  have hinner : ∀ fuel : Nat, cmpEqualF (fuel + 1)
      (.map (normNumEntries (pme0.append e))) (.map (normNumEntries pme0)) = false := by
    intro fuel
    refine cmpEqualF_map_false fuel _ _ "dash0-threshold-critical" (Val.str "50") hy0 ?_
    rw [hcritB]
  show cmpEqualF (valSize (Val.map (normNumEntries (NormalizeYAML d'))) +
      valSize (Val.map (normNumEntries (NormalizeYAML d))))
      (Val.map (normNumEntries (NormalizeYAML d')))
      (Val.map (normNumEntries (NormalizeYAML d))) = false
  obtain ⟨F2, hF⟩ : ∃ F2, valSize (Val.map (normNumEntries (NormalizeYAML d'))) +
      valSize (Val.map (normNumEntries (NormalizeYAML d))) = F2 + 2 :=
    ⟨entriesSize (normNumEntries (NormalizeYAML d')) +
      entriesSize (normNumEntries (NormalizeYAML d)), by simp [valSize]; omega⟩
  rw [hF]
  refine cmpEqualF_map_false (F2 + 1) _ _ "annotations"
    (Val.map (normNumEntries (pme0.append e))) hx0 ?_
  have hlkB : Ents.lookup "annotations" (normNumEntries (NormalizeYAML d)) =
      (if isEmpty pme0 then none else some (Val.map (normNumEntries pme0))) := by
    rw [lookup_normNum, hNd]
    split_ifs <;> rfl
  rw [hlkB]
  by_cases hemp : isEmpty pme0 = true
  · rw [if_pos hemp]
  · rw [if_neg hemp]
    exact hinner F2

/-- **C7** (counterexample to the original claim): adding
`dash0-threshold-critical: "50"` where it was absent does not always flip
`Equivalent` to false: inside `metadata.annotations` the normalizer deletes
the whole map, added entry included, and the two documents stay
equivalent. -/

theorem C7_metadata_annotations_counterexample :
    ResourceYAMLEquivalent
      (addAtEnts [Step.key "metadata", Step.key "annotations"]
        "dash0-threshold-critical" (.str "50") metaAnnDoc)
      metaAnnDoc = true := rfl

/-- **C7** (amended): adding a default-valued annotation entry
(`dash0-threshold-critical`/`dash0-threshold-degraded` with `"0"`, or
`dash0-enabled` with `"true"`) to any annotations map the normalizer
processes never changes `Equivalent`, in either argument position; and
adding `dash0-threshold-critical: "50"` where it was absent flips
`Equivalent` against the original to false when the annotations map sits at
the document root of a duplicate-key-free document. -/

theorem C7_default_values_and_crit50
    (d a : Ents) (p : List Step) (k0 s0 : String)
    (hdef : ((k0 = "dash0-threshold-critical" ∨ k0 = "dash0-threshold-degraded") ∧ s0 = "0")
      ∨ (k0 = "dash0-enabled" ∧ s0 = "true"))
    (hproc : procPathVal ignoredFields (p ++ [Step.key "annotations"]) (.map d) = true) :
    (∀ y : Ents,
      ResourceYAMLEquivalent
          (addAtEnts (p ++ [Step.key "annotations"]) k0 (.str s0) d) y =
        ResourceYAMLEquivalent d y
      ∧ ResourceYAMLEquivalent y
          (addAtEnts (p ++ [Step.key "annotations"]) k0 (.str s0) d) =
        ResourceYAMLEquivalent y d)
    ∧ (Ents.lookup "annotations" d = some (.map a) →
       Ents.lookup "dash0-threshold-critical" a = none →
       d.keys.Nodup →
       ResourceYAMLEquivalent
         (addAtEnts [Step.key "annotations"] "dash0-threshold-critical" (.str "50") d)
         d = false) := by
  have hN : NormalizeYAML (addAtEnts (p ++ [Step.key "annotations"]) k0 (.str s0) d) =
      NormalizeYAML d := by
    show cleanupMap ignoredFields
        (modAtEnts (fun b => b.append (.cons k0 (.str s0) .nil))
          (p ++ [Step.key "annotations"]) d) = cleanupMap ignoredFields d
    exact cleanup_modAt_ann _ (fun f2 b => cleanup_append_default f2 b k0 s0 hdef)
      p ignoredFields d hproc
  constructor
  · intro y
    constructor <;> simp only [ResourceYAMLEquivalent, hN]
  · intro hlk habs hnd
    exact crit50_breaks_equivalence d a hlk habs hnd

theorem C7_default_values_and_crit50_witness :
    (procPathVal ignoredFields ([] ++ [Step.key "annotations"]) (.map c7doc) = true
      ∧ c7doc.keys.Nodup)
    ∧ ResourceYAMLEquivalent
        (addAtEnts [Step.key "annotations"] "dash0-threshold-critical" (.str "50") c7doc)
        c7doc = false :=
  ⟨⟨rfl, by decide⟩,
    (C7_default_values_and_crit50 c7doc (.cons "x" (.str "y") .nil) []
      "dash0-enabled" "true" (Or.inr ⟨rfl, rfl⟩) rfl).2 rfl rfl (by decide)⟩

/-- **C8** (counterexample to the original claim): the normalizer does not
delete empty values everywhere in the tree: an empty string inside a list
survives `Normalize` unchanged, and the document with the field present but
"empty" in this sense is not `Equivalent` to the one omitting the field. -/

theorem C8_empty_in_list_counterexample :
    NormalizeYAML emptyInListDoc = emptyInListDoc
    ∧ ResourceYAMLEquivalent emptyInListDoc Ents.nil = false := ⟨rfl, rfl⟩

/-- **C8** (amended): for map entries the claim holds: adding an entry whose
value is empty (empty string, empty list or empty map) to any map the
normalizer processes leaves `Normalize` unchanged, so the document with the
field omitted and the one with it present-but-empty normalize to the same
canonical form and `Equivalent` is unchanged in either argument position.
Empty values in list items are not removed (see the counterexample). -/

theorem C8_empty_added_entries_invisible
    (d : Ents) (path : List Step) (k0 : String) (v0 : Val)
    (hempty : v0 = .str "" ∨ v0 = .list .nil ∨ v0 = .map .nil)
    (hproc : procPathVal ignoredFields path (.map d) = true) :
    NormalizeYAML (addAtEnts path k0 v0 d) = NormalizeYAML d
    ∧ ∀ y : Ents,
        ResourceYAMLEquivalent (addAtEnts path k0 v0 d) y = ResourceYAMLEquivalent d y
        ∧ ResourceYAMLEquivalent y (addAtEnts path k0 v0 d) = ResourceYAMLEquivalent y d := by
  have hN : NormalizeYAML (addAtEnts path k0 v0 d) = NormalizeYAML d := by
    show cleanupMap ignoredFields
        (modAtEnts (fun b => b.append (.cons k0 v0 .nil)) path d) =
      cleanupMap ignoredFields d
    exact cleanup_modAt _ (fun f2 b => cleanup_append_empty f2 b k0 v0 hempty)
      path ignoredFields d hproc
  refine ⟨hN, fun y => ?_⟩
  constructor <;> simp only [ResourceYAMLEquivalent, hN]

theorem C8_empty_added_entries_invisible_witness :
    (procPathVal ignoredFields [] (.map (Ents.cons "b" (.str "v") .nil)) = true
      ∧ NormalizeYAML (addAtEnts [] "a" (.str "") (Ents.cons "b" (.str "v") .nil)) =
          NormalizeYAML (Ents.cons "b" (.str "v") .nil)) :=
  ⟨rfl, (C8_empty_added_entries_invisible (Ents.cons "b" (.str "v") .nil) [] "a" (.str "")
    (Or.inl rfl) rfl).1⟩


theorem strNeEmpty (s : String) (h : s.data ≠ []) : s ≠ "" :=
  fun he => h (by rw [he])

theorem natDigitsF_ne_nil (fuel n : Nat) (hn : n ≠ 0) :
    natDigitsF (fuel + 1) n ≠ [] := by
  cases n with
  | zero => exact absurd rfl hn
  | succ m => simp [natDigitsF]

theorem natDecimal_data_ne (n : Nat) : (natDecimal n).data ≠ [] := by
  rw [natDecimal]
  split_ifs with h
  · simp
  · show (natDigitsF (n + 1) n) ≠ []
    exact natDigitsF_ne_nil n n h

theorem intDecimal_data_ne (n : Int) : (intDecimal n).data ≠ [] := by
  rw [intDecimal]
  split_ifs with h
  · intro hc
    rw [String.data_append] at hc
    simp at hc
  · exact natDecimal_data_ne _

theorem ratSprint_data_ne (q : Rat) : (ratSprint q).data ≠ [] := by
  simp only [ratSprint]
  split_ifs <;>
    first
    | exact intDecimal_data_ne q.num
    | (intro hc;
       rw [String.data_append, String.data_append] at hc;
       simp only [List.append_eq_nil] at hc;
       first
       | exact natDecimal_data_ne _ hc.1.2
       | exact absurd hc.1.2 (by decide))

theorem sprint_ne_empty (v : Val) (h : ∀ s, v ≠ .str s) : ¬sprint v = "" := by
  cases v with
  | str s => exact absurd rfl (h s)
  | int n => exact strNeEmpty _ (intDecimal_data_ne n)
  | flt q => exact strNeEmpty _ (ratSprint_data_ne q)
  | bool b => cases b <;> decide
  | null => decide
  | list l =>
    refine strNeEmpty _ ?_
    intro hc
    rw [show sprint (.list l) = "[" ++ (String.intercalate " " (sprintItems l) ++ "]")
      from by rw [sprint, String.append_assoc]] at hc
    rw [String.data_append] at hc
    simp at hc
  | map m =>
    refine strNeEmpty _ ?_
    intro hc
    rw [show sprint (.map m) = "map[" ++
        (String.intercalate " "
          ((sortStrKey (sprintEntries m)).map (fun kv => kv.1 ++ ":" ++ kv.2)) ++ "]")
      from by rw [sprint, String.append_assoc]] at hc
    rw [String.data_append] at hc
    simp at hc

theorem cleanupEntry_of_survives (fields : List String) (k : String) (v : Val)
    (h : entrySurvives fields k v = true) : cleanupEntry fields k v = some v := by
  cases v
  case str s =>
    simp [entrySurvives] at h
    obtain ⟨⟨hrem, hs⟩, hkz⟩ := h
    have hrem2 : ¬(removeHere fields k = true) := by simp [hrem]
    have hkz2 : ¬(k = "keep_firing_for" ∧ parseDuration s = some 0) := by
      intro hc
      rcases hkz with h4 | h4
      · exact h4 hc.1
      · exact h4 hc.2
    rw [cleanupEntry, if_neg hrem2, if_neg hs, if_neg hkz2]
  all_goals simp [entrySurvives] at h

theorem cleanupMap_of_allSurvive (fields : List String) :
    ∀ m : Ents, allSurvive fields m = true → cleanupMap fields m = m := by
  intro m
  induction m using entsIndSpine with
  | h0 => intro _; rfl
  | h1 k v r ih =>
    intro h
    rw [allSurvive, Bool.and_eq_true] at h
    rw [cleanupMap_cons, cleanupEntry_of_survives fields k v h.1, ih h.2]

theorem stringify_of_allSurvive (fields : List String) :
    ∀ m : Ents, allSurvive fields m = true → stringifyMapValues m = m := by
  intro m
  induction m using entsIndSpine with
  | h0 => intro _; rfl
  | h1 k v r ih =>
    intro h
    rw [allSurvive, Bool.and_eq_true] at h
    obtain ⟨h1, h2⟩ := h
    cases v
    case str s => simp [stringifyMapValues, ih h2]
    all_goals simp [entrySurvives] at h1

theorem rd_allSurvive (fields : List String) :
    ∀ m : Ents, allSurvive fields m = true →
      allSurvive fields (removeDefaultAnnotationValues m) = true := by
  intro m
  induction m using entsIndSpine with
  | h0 => intro _; rfl
  | h1 k v r ih =>
    intro h
    rw [allSurvive, Bool.and_eq_true] at h
    obtain ⟨h1, h2⟩ := h
    cases v
    case str s =>
      rw [removeDefaultAnnotationValues]
      split_ifs with hc
      · exact ih h2
      · rw [allSurvive, Bool.and_eq_true]
        exact ⟨h1, ih h2⟩
    all_goals simp [entrySurvives] at h1

theorem rd_idem :
    ∀ m : Ents, removeDefaultAnnotationValues (removeDefaultAnnotationValues m) =
      removeDefaultAnnotationValues m := by
  intro m
  induction m using entsIndSpine with
  | h0 => rfl
  | h1 k v r ih =>
    cases v
    case str s =>
      rw [removeDefaultAnnotationValues]
      split_ifs with hc
      · exact ih
      · rw [removeDefaultAnnotationValues, if_neg hc, ih]
    all_goals simp [removeDefaultAnnotationValues, ih]

theorem entrySurvives_sprint (fields : List String) (k : String) (v2 : Val)
    (hrem : removeHere fields k = false) (hkff : k ≠ "keep_firing_for")
    (hnstr : ∀ s, v2 ≠ .str s) :
    entrySurvives fields k (.str (sprint v2)) = true := by
  rw [entrySurvives]
  simp [hrem, hkff, sprint_ne_empty v2 hnstr]

theorem cleanupMap_cons_none {fields : List String} {k : String} {v : Val} {rest : Ents}
    (h : cleanupEntry fields k v = none) :
    cleanupMap fields (.cons k v rest) = cleanupMap fields rest := by
  rw [cleanupMap_cons, h]

theorem cleanupMap_cons_some {fields : List String} {k : String} {v v2 : Val} {rest : Ents}
    (h : cleanupEntry fields k v = some v2) :
    cleanupMap fields (.cons k v rest) = .cons k v2 (cleanupMap fields rest) := by
  rw [cleanupMap_cons, h]

theorem kff_ne_of_nonstr (k : String) (v : Val)
    (hk : kffOK k v = true)
    (hnstr : ∀ s, v ≠ .str s) : k ≠ "keep_firing_for" := by
  intro hke
  subst hke
  cases v
  case str s => exact absurd rfl (hnstr s)
  all_goals simp [kffOK] at hk

theorem allSurvive_stringify_step (fields : List String) (k : String) (v2 : Val) (r2 : Ents)
    (hrem : removeHere fields k = false) (hkff : k ≠ "keep_firing_for")
    (hnstr : ∀ s, v2 ≠ .str s)
    (htail : allSurvive fields (stringifyMapValues r2) = true) :
    allSurvive fields (stringifyMapValues (.cons k v2 r2)) = true := by
  cases v2
  case str s => exact absurd rfl (hnstr s)
  case int n =>
    simp only [stringifyMapValues, allSurvive, Bool.and_eq_true]
    exact ⟨entrySurvives_sprint fields k (.int n) hrem hkff hnstr, htail⟩
  case flt q =>
    simp only [stringifyMapValues, allSurvive, Bool.and_eq_true]
    exact ⟨entrySurvives_sprint fields k (.flt q) hrem hkff hnstr, htail⟩
  case bool b =>
    simp only [stringifyMapValues, allSurvive, Bool.and_eq_true]
    exact ⟨entrySurvives_sprint fields k (.bool b) hrem hkff hnstr, htail⟩
  case null =>
    simp only [stringifyMapValues, allSurvive, Bool.and_eq_true]
    exact ⟨entrySurvives_sprint fields k .null hrem hkff hnstr, htail⟩
  case list l =>
    simp only [stringifyMapValues, allSurvive, Bool.and_eq_true]
    exact ⟨entrySurvives_sprint fields k (.list l) hrem hkff hnstr, htail⟩
  case map m =>
    simp only [stringifyMapValues, allSurvive, Bool.and_eq_true]
    exact ⟨entrySurvives_sprint fields k (.map m) hrem hkff hnstr, htail⟩

theorem cleanupEntry_removed (fields : List String) (k : String) (v : Val)
    (h : removeHere fields k = true) :
    cleanupEntry fields k v = none := by
  cases v <;> simp [cleanupEntry, h]

theorem allSurvive_stringify_cleanup (fields : List String) :
    ∀ m : Ents, kffStrE m = true →
      allSurvive fields (stringifyMapValues (cleanupMap fields m)) = true := by
  intro m
  induction m using entsIndSpine with
  | h0 => intro _; rfl
  | h1 k v r ih =>
    intro h
    rw [kffStrE, Bool.and_eq_true, Bool.and_eq_true] at h
    obtain ⟨⟨hk, hv⟩, hr⟩ := h
    by_cases hremt : removeHere fields k = true
    · rw [cleanupMap_cons_none (cleanupEntry_removed fields k v hremt)]
      exact ih hr
    · rw [Bool.not_eq_true] at hremt
      cases v with
      | str s =>
        by_cases hs : s = ""
        · have hce : cleanupEntry fields k (.str s) = none := by
            rw [cleanupEntry, if_neg (by simp [hremt]), if_pos hs]
          rw [cleanupMap_cons_none hce]
          exact ih hr
        · by_cases hz : k = "keep_firing_for" ∧ parseDuration s = some 0
          · have hce : cleanupEntry fields k (.str s) = none := by
              rw [cleanupEntry, if_neg (by simp [hremt]), if_neg hs, if_pos hz]
            rw [cleanupMap_cons_none hce]
            exact ih hr
          · have hce : cleanupEntry fields k (.str s) = some (.str s) := by
              rw [cleanupEntry, if_neg (by simp [hremt]), if_neg hs, if_neg hz]
            rw [cleanupMap_cons_some hce]
            rw [stringifyMapValues, allSurvive, Bool.and_eq_true]
            refine ⟨?_, ih hr⟩
            have hsb : (s == "") = false := by simpa using hs
            have hzb : (k == "keep_firing_for" && parseDuration s == some 0) = false := by
              cases hb : (k == "keep_firing_for" && parseDuration s == some 0)
              · rfl
              · rw [Bool.and_eq_true] at hb
                exact absurd ⟨by simpa using hb.1, by simpa using hb.2⟩ hz
            rw [entrySurvives, hremt, hsb, hzb]
            rfl
      | list l =>
        have hkff := kff_ne_of_nonstr k _ hk (fun s hne => nomatch hne)
        by_cases hemp : (cleanupList l).isEmpty = true
        · have hce : cleanupEntry fields k (.list l) = none := by
            simp only [cleanupEntry]
            rw [if_neg (by simp [hremt]), if_pos hemp]
          rw [cleanupMap_cons_none hce]
          exact ih hr
        · have hce : cleanupEntry fields k (.list l) = some (.list (cleanupList l)) := by
            simp only [cleanupEntry]
            rw [if_neg (by simp [hremt]), if_neg hemp]
          rw [cleanupMap_cons_some hce]
          exact allSurvive_stringify_step fields k _ _ hremt hkff
            (fun s hne => nomatch hne) (ih hr)
      | map m2 =>
        have hkff := kff_ne_of_nonstr k _ hk (fun s hne => nomatch hne)
        by_cases hemp : isEmpty (processedMapEntry fields k m2) = true
        · have hce : cleanupEntry fields k (.map m2) = none := by
            simp only [cleanupEntry]
            rw [if_neg (by simp [hremt]), if_pos hemp]
          rw [cleanupMap_cons_none hce]
          exact ih hr
        · have hce : cleanupEntry fields k (.map m2) =
              some (.map (processedMapEntry fields k m2)) := by
            simp only [cleanupEntry]
            rw [if_neg (by simp [hremt]), if_neg hemp]
          rw [cleanupMap_cons_some hce]
          exact allSurvive_stringify_step fields k _ _ hremt hkff
            (fun s hne => nomatch hne) (ih hr)
      | int n =>
        have hkff := kff_ne_of_nonstr k _ hk (fun s hne => nomatch hne)
        have hce : cleanupEntry fields k (.int n) = some (.int n) := by
          simp [cleanupEntry, hremt]
        rw [cleanupMap_cons_some hce]
        exact allSurvive_stringify_step fields k _ _ hremt hkff
          (fun s hne => nomatch hne) (ih hr)
      | flt q =>
        have hkff := kff_ne_of_nonstr k _ hk (fun s hne => nomatch hne)
        have hce : cleanupEntry fields k (.flt q) = some (.flt q) := by
          simp [cleanupEntry, hremt]
        rw [cleanupMap_cons_some hce]
        exact allSurvive_stringify_step fields k _ _ hremt hkff
          (fun s hne => nomatch hne) (ih hr)
      | bool b =>
        have hkff := kff_ne_of_nonstr k _ hk (fun s hne => nomatch hne)
        have hce : cleanupEntry fields k (.bool b) = some (.bool b) := by
          simp [cleanupEntry, hremt]
        rw [cleanupMap_cons_some hce]
        exact allSurvive_stringify_step fields k _ _ hremt hkff
          (fun s hne => nomatch hne) (ih hr)
      | null =>
        have hkff := kff_ne_of_nonstr k _ hk (fun s hne => nomatch hne)
        have hce : cleanupEntry fields k .null = some .null := by
          simp [cleanupEntry, hremt]
        rw [cleanupMap_cons_some hce]
        exact allSurvive_stringify_step fields k _ _ hremt hkff
          (fun s hne => nomatch hne) (ih hr)

theorem pme_fix (fields : List String) (k : String) (m2 : Ents)
    (hm : kffStrE m2 = true)
    (hidem : cleanupMap (nestedFor fields k) (cleanupMap (nestedFor fields k) m2) =
      cleanupMap (nestedFor fields k) m2) :
    processedMapEntry fields k (processedMapEntry fields k m2) =
      processedMapEntry fields k m2 := by
  by_cases hann : k = "annotations"
  · subst hann
    have heq : ∀ x : Ents, processedMapEntry fields "annotations" x =
        removeDefaultAnnotationValues
          (stringifyMapValues (cleanupMap (nestedFor fields "annotations") x)) :=
      fun _ => rfl
    have hsur := allSurvive_stringify_cleanup (nestedFor fields "annotations") m2 hm
    have hsur2 := rd_allSurvive (nestedFor fields "annotations") _ hsur
    rw [heq, heq]
    rw [cleanupMap_of_allSurvive _ _ hsur2, stringify_of_allSurvive _ _ hsur2, rd_idem]
  · by_cases hlab : k = "labels"
    · subst hlab
      have heq : ∀ x : Ents, processedMapEntry fields "labels" x =
          stringifyMapValues (cleanupMap (nestedFor fields "labels") x) :=
        fun _ => rfl
      have hsur := allSurvive_stringify_cleanup (nestedFor fields "labels") m2 hm
      rw [heq, heq]
      rw [cleanupMap_of_allSurvive _ _ hsur, stringify_of_allSurvive _ _ hsur]
    · have heq : ∀ x : Ents, processedMapEntry fields k x =
          cleanupMap (nestedFor fields k) x := by
        intro x
        simp only [processedMapEntry]
        rw [if_neg hann,
          if_neg (show ¬(k = "annotations" ∨ k = "labels") from by
            push_neg
            exact ⟨hann, hlab⟩)]
      rw [heq, heq]
      exact hidem

mutual

theorem cleanup_idem_e : (fields : List String) → (m : Ents) → kffStrE m = true →
    cleanupMap fields (cleanupMap fields m) = cleanupMap fields m
  | _, .nil, _ => rfl
  | fields, .cons k v rest, h => by
    rw [kffStrE, Bool.and_eq_true, Bool.and_eq_true] at h
    obtain ⟨⟨hk, hv⟩, hr⟩ := h
    have ihr := cleanup_idem_e fields rest hr
    by_cases hremt : removeHere fields k = true
    · rw [cleanupMap_cons_none (cleanupEntry_removed fields k v hremt)]
      exact ihr
    · rw [Bool.not_eq_true] at hremt
      cases v with
      | str s =>
        by_cases hs : s = ""
        · have hce : cleanupEntry fields k (.str s) = none := by
            rw [cleanupEntry, if_neg (by simp [hremt]), if_pos hs]
          rw [cleanupMap_cons_none hce]
          exact ihr
        · by_cases hz : k = "keep_firing_for" ∧ parseDuration s = some 0
          · have hce : cleanupEntry fields k (.str s) = none := by
              rw [cleanupEntry, if_neg (by simp [hremt]), if_neg hs, if_pos hz]
            rw [cleanupMap_cons_none hce]
            exact ihr
          · have hce : cleanupEntry fields k (.str s) = some (.str s) := by
              rw [cleanupEntry, if_neg (by simp [hremt]), if_neg hs, if_neg hz]
            rw [cleanupMap_cons_some hce, cleanupMap_cons_some hce, ihr]
      | int n =>
        have hce : cleanupEntry fields k (.int n) = some (.int n) := by
          simp [cleanupEntry, hremt]
        rw [cleanupMap_cons_some hce, cleanupMap_cons_some hce, ihr]
      | flt q =>
        have hce : cleanupEntry fields k (.flt q) = some (.flt q) := by
          simp [cleanupEntry, hremt]
        rw [cleanupMap_cons_some hce, cleanupMap_cons_some hce, ihr]
      | bool b =>
        have hce : cleanupEntry fields k (.bool b) = some (.bool b) := by
          simp [cleanupEntry, hremt]
        rw [cleanupMap_cons_some hce, cleanupMap_cons_some hce, ihr]
      | null =>
        have hce : cleanupEntry fields k .null = some .null := by
          simp [cleanupEntry, hremt]
        rw [cleanupMap_cons_some hce, cleanupMap_cons_some hce, ihr]
      | list l =>
        have hli := cleanup_idem_i l (show kffStrI l = true from hv)
        by_cases hemp : (cleanupList l).isEmpty = true
        · have hce : cleanupEntry fields k (.list l) = none := by
            simp only [cleanupEntry]
            rw [if_neg (by simp [hremt]), if_pos hemp]
          rw [cleanupMap_cons_none hce]
          exact ihr
        · have hce : cleanupEntry fields k (.list l) = some (.list (cleanupList l)) := by
            simp only [cleanupEntry]
            rw [if_neg (by simp [hremt]), if_neg hemp]
          have hce2 : cleanupEntry fields k (.list (cleanupList l)) =
              some (.list (cleanupList l)) := by
            simp only [cleanupEntry]
            rw [if_neg (by simp [hremt]), hli, if_neg hemp]
          rw [cleanupMap_cons_some hce, cleanupMap_cons_some hce2, ihr]
      | map m2 =>
        have hm2 : kffStrE m2 = true := hv
        have hidem := cleanup_idem_e (nestedFor fields k) m2 hm2
        have hpf := pme_fix fields k m2 hm2 hidem
        by_cases hemp : isEmpty (processedMapEntry fields k m2) = true
        · have hce : cleanupEntry fields k (.map m2) = none := by
            simp only [cleanupEntry]
            rw [if_neg (by simp [hremt]), if_pos hemp]
          rw [cleanupMap_cons_none hce]
          exact ihr
        · have hce : cleanupEntry fields k (.map m2) =
              some (.map (processedMapEntry fields k m2)) := by
            simp only [cleanupEntry]
            rw [if_neg (by simp [hremt]), if_neg hemp]
          have hce2 : cleanupEntry fields k (.map (processedMapEntry fields k m2)) =
              some (.map (processedMapEntry fields k m2)) := by
            simp only [cleanupEntry]
            rw [if_neg (by simp [hremt]), hpf, if_neg hemp]
          rw [cleanupMap_cons_some hce, cleanupMap_cons_some hce2, ihr]

theorem cleanup_idem_i : (l : Items) → kffStrI l = true →
    cleanupList (cleanupList l) = cleanupList l
  | .nil, _ => rfl
  | .cons v rest, h => by
    rw [kffStrI, Bool.and_eq_true] at h
    obtain ⟨hv, hr⟩ := h
    have ihr := cleanup_idem_i rest hr
    cases v with
    | map m3 =>
      simp only [cleanupList]
      rw [cleanup_idem_e [] m3 (show kffStrE m3 = true from hv), ihr]
    | str s => simp only [cleanupList]; rw [ihr]
    | int n => simp only [cleanupList]; rw [ihr]
    | flt q => simp only [cleanupList]; rw [ihr]
    | bool b => simp only [cleanupList]; rw [ihr]
    | null => simp only [cleanupList]; rw [ihr]
    | list l2 => simp only [cleanupList]; rw [ihr]

end

/-- **C9** (counterexample to the original claim): normalization is not
idempotent.  On `{labels: {keep_firing_for: 0}}` the first pass stringifies
the integer to `"0"`, which the second pass deletes as a zero
`keep_firing_for` duration, emptying (and thus removing) the labels map. -/
theorem C9_normalize_not_idempotent_counterexample :
    NormalizeYAML (NormalizeYAML kffIntDoc) ≠ NormalizeYAML kffIntDoc := by
  intro hcontra
  have h1 : NormalizeYAML kffIntDoc =
      Ents.cons "labels" (.map (.cons "keep_firing_for" (.str "0") .nil)) .nil := rfl
  have h2 : NormalizeYAML (NormalizeYAML kffIntDoc) = Ents.nil := rfl
  rw [h2, h1] at hcontra
  exact Ents.noConfusion hcontra

/-- **C9** (amended): normalization is idempotent on every document in
which `keep_firing_for` map entries hold string values (anywhere in the
tree).  Without that restriction it is not: stringification of
`annotations`/`labels` values can create a string (`"0"`) that only the
second pass recognizes as a removable zero duration (see the
counterexample). -/
theorem C9_normalize_idempotent_on_kff_strings (d : Ents) (h : kffStrE d = true) :
    NormalizeYAML (NormalizeYAML d) = NormalizeYAML d :=
  cleanup_idem_e ignoredFields d h

theorem C9_normalize_idempotent_on_kff_strings_witness :
    kffStrE kffStrDoc = true
    ∧ NormalizeYAML (NormalizeYAML kffStrDoc) = NormalizeYAML kffStrDoc :=
  ⟨rfl, C9_normalize_idempotent_on_kff_strings kffStrDoc rfl⟩


theorem itemsSize_pos (l : Items) : 1 ≤ itemsSize l := by
  cases l <;> simp [itemsSize]

theorem valSize_lt_of_mem_items :
    ∀ (l : Items) (v : Val), v ∈ l.toList → valSize v < itemsSize l := by
  intro l
  induction l using itemsIndSpine with
  | h0 => intro v hv; simp [Items.toList] at hv
  | h1 v2 rest ih =>
    intro v hv
    rw [Items.toList, List.mem_cons] at hv
    rw [itemsSize]
    rcases hv with hv | hv
    · subst hv
      have := itemsSize_pos rest
      omega
    · have := ih v hv
      have := valSize_pos v2
      omega

theorem valSize_lt_of_mem_ents :
    ∀ (m : Ents) (k : String) (v : Val), (k, v) ∈ m.toList →
      valSize v < entriesSize m := by
  intro m
  induction m using entsIndSpine with
  | h0 => intro k v hv; simp [Ents.toList] at hv
  | h1 k2 v2 rest ih =>
    intro k v hv
    rw [Ents.toList, List.mem_cons] at hv
    rw [entriesSize]
    rcases hv with hv | hv
    · injection hv with h1 h2
      subst h2
      have := entriesSize_pos rest
      omega
    · have := ih k v hv
      have := valSize_pos v2
      omega

theorem zip_self_eq {α : Type} :
    ∀ (l : List α) (p : α × α), p ∈ l.zip l → p.1 = p.2 := by
  intro l
  induction l with
  | nil => intro p hp; simp at hp
  | cons a rest ih =>
    intro p hp
    rw [List.zip_cons_cons, List.mem_cons] at hp
    rcases hp with hp | hp
    · subst hp; rfl
    · exact ih p hp

theorem mem_insertSorted {α : Type} (le : α → α → Bool) (a : α) :
    ∀ (l : List α) (x : α), x ∈ insertSorted le a l → x = a ∨ x ∈ l := by
  intro l
  induction l with
  | nil => intro x hx; rw [insertSorted, List.mem_singleton] at hx; exact Or.inl hx
  | cons b rest ih =>
    intro x hx
    rw [insertSorted] at hx
    split_ifs at hx
    · rw [List.mem_cons] at hx
      rcases hx with hx | hx
      · exact Or.inl hx
      · exact Or.inr hx
    · rw [List.mem_cons] at hx
      rcases hx with hx | hx
      · exact Or.inr (hx ▸ List.mem_cons_self b rest)
      · rcases ih x hx with hx | hx
        · exact Or.inl hx
        · exact Or.inr (List.mem_cons_of_mem b hx)

theorem mem_sortBy {α : Type} (le : α → α → Bool) :
    ∀ (l : List α) (x : α), x ∈ sortBy le l → x ∈ l := by
  intro l
  induction l with
  | nil => intro x hx; simp [sortBy] at hx
  | cons b rest ih =>
    intro x hx
    rw [sortBy] at hx
    rcases mem_insertSorted le b (sortBy le rest) x hx with hx | hx
    · exact hx ▸ List.mem_cons_self b rest
    · exact List.mem_cons_of_mem b (ih x hx)

theorem lookup_isSome_of_mem :
    ∀ (m : Ents) (k : String) (v : Val), (k, v) ∈ m.toList →
      (Ents.lookup k m).isSome = true := by
  intro m
  induction m using entsIndSpine with
  | h0 => intro k v hv; simp [Ents.toList] at hv
  | h1 k2 v2 rest ih =>
    intro k v hv
    rw [Ents.toList, List.mem_cons] at hv
    rw [Ents.lookup]
    rcases hv with hv | hv
    · injection hv with h1 h2
      subst h1
      simp
    · rcases hbe : (k2 == k) with _ | _
      · simp only [Bool.false_eq_true, if_false]
        exact ih k v hv
      · simp

theorem lookup_of_mem_nodup :
    ∀ (m : Ents) (k : String) (v : Val), nodupKeys m = true → (k, v) ∈ m.toList →
      Ents.lookup k m = some v := by
  intro m
  induction m using entsIndSpine with
  | h0 => intro k v _ hv; simp [Ents.toList] at hv
  | h1 k2 v2 rest ih =>
    intro k v hnd hv
    rw [nodupKeys, Bool.and_eq_true] at hnd
    rw [Ents.toList, List.mem_cons] at hv
    rw [Ents.lookup]
    rcases hv with hv | hv
    · injection hv with h1 h2
      subst h1; subst h2
      simp
    · rcases hbe : (k2 == k) with _ | _
      · simp only [Bool.false_eq_true, if_false]
        exact ih k v hnd.2 hv
      · have hk : k2 = k := by simpa using hbe
        subst hk
        have := lookup_isSome_of_mem rest k2 v hv
        rw [this] at hnd
        exact absurd hnd.1 (by simp)

theorem wf_of_mem_ents :
    ∀ (m : Ents) (k : String) (v : Val), wfKeysE m = true → (k, v) ∈ m.toList →
      wfKeysV v = true := by
  intro m
  induction m using entsIndSpine with
  | h0 => intro k v _ hv; simp [Ents.toList] at hv
  | h1 k2 v2 rest ih =>
    intro k v hwf hv
    rw [wfKeysE, Bool.and_eq_true] at hwf
    rw [Ents.toList, List.mem_cons] at hv
    rcases hv with hv | hv
    · injection hv with h1 h2
      subst h2
      exact hwf.1
    · exact ih k v hwf.2 hv

theorem wf_of_mem_items :
    ∀ (l : Items) (v : Val), wfKeysI l = true → v ∈ l.toList →
      wfKeysV v = true := by
  intro l
  induction l using itemsIndSpine with
  | h0 => intro v _ hv; simp [Items.toList] at hv
  | h1 v2 rest ih =>
    intro v hwf hv
    rw [wfKeysI, Bool.and_eq_true] at hwf
    rw [Items.toList, List.mem_cons] at hv
    rcases hv with hv | hv
    · subst hv
      exact hwf.1
    · exact ih v hwf.2 hv

theorem cmpEqualF_refl :
    ∀ (fuel : Nat) (v : Val), wfKeysV v = true → valSize v ≤ fuel →
      cmpEqualF fuel v v = true := by
  intro fuel
  induction fuel with
  | zero =>
    intro v _ hs
    have := valSize_pos v
    omega
  | succ n ihf =>
    intro v hwf hs
    cases v with
    | str s =>
      show (match parseDuration s, parseDuration s with
        | some x, some y => x == y
        | _, _ => s == s) = true
      cases parseDuration s <;> simp
    | int a => simp [cmpEqualF]
    | flt q => simp [cmpEqualF]
    | bool b => simp [cmpEqualF]
    | null => simp [cmpEqualF]
    | list l =>
      rw [wfKeysV] at hwf
      simp only [cmpEqualF]
      rw [Bool.and_eq_true]
      constructor
      · simp
      · rw [List.all_eq_true]
        intro p hp
        rcases p with ⟨x, y⟩
        have hxy : x = y := zip_self_eq _ (x, y) hp
        subst hxy
        have hmem : x ∈ sortBySprint l.toList := (List.of_mem_zip hp).1
        have hm2 : x ∈ l.toList := mem_sortBy _ _ x hmem
        have hsz : valSize x ≤ n := by
          have h1 := valSize_lt_of_mem_items l x hm2
          rw [show valSize (Val.list l) = itemsSize l + 1 from rfl] at hs
          omega
        exact ihf x (wf_of_mem_items l x hwf hm2) hsz
    | map m =>
      rw [wfKeysV, Bool.and_eq_true] at hwf
      simp only [cmpEqualF]
      rw [Bool.and_eq_true]
      constructor
      · rw [List.all_eq_true]
        intro kv hkv
        rcases kv with ⟨k, w⟩
        have hlk := lookup_of_mem_nodup m k w hwf.1 hkv
        rw [hlk]
        have hsz : valSize w ≤ n := by
          have h1 := valSize_lt_of_mem_ents m k w hkv
          rw [show valSize (Val.map m) = entriesSize m + 1 from rfl] at hs
          omega
        exact ihf w (wf_of_mem_ents m k w hwf.2 hkv) hsz
      · rw [List.all_eq_true]
        intro kv hkv
        rcases kv with ⟨k, w⟩
        exact lookup_isSome_of_mem m k w hkv

theorem cmpEqual_refl (v : Val) (hwf : wfKeysV v = true) : cmpEqual v v = true :=
  cmpEqualF_refl (valSize v + valSize v) v hwf (by have := valSize_pos v; omega)

theorem cleanup_all_removed (fields : List String) :
    ∀ ys : List (String × String),
      (∀ kv ∈ ys, removeHere fields kv.1 = true) →
      cleanupMap fields (Ents.ofList (ys.map (fun kv => (kv.1, Val.str kv.2)))) = .nil := by
  intro ys
  induction ys with
  | nil => intro _; rfl
  | cons kv rest ih =>
    intro h
    show cleanupMap fields
      (.cons kv.1 (.str kv.2) (Ents.ofList (rest.map (fun kv => (kv.1, Val.str kv.2))))) = .nil
    rw [cleanupMap_cons_none
      (cleanupEntry_removed fields kv.1 _ (h kv (List.mem_cons_self _ _)))]
    exact ih (fun kv2 h2 => h kv2 (List.mem_cons_of_mem _ h2))

/-- **C1** (counterexample to the original claim): a group name containing
`" - "` breaks the round trip.  `ToInternal` joins group and alert names
with `" - "`, and `ToOpenSchema` splits at the FIRST occurrence, so
`{group: "a - b", alert: "c"}` comes back as `{group: "a", alert: "b - c"}`
and the documents are not equivalent. -/
theorem C1_round_trip_counterexample :
    ConvertPromYAMLToDash0CheckRule c1Doc "default" = .ok c1Rec
    ∧ ConvertDash0JSONtoPrometheusRules c1Rec = some c1Back
    ∧ ResourceYAMLEquivalent (marshalPrometheusRules c1Doc)
        (marshalPrometheusRules c1Back) = false := by
  refine ⟨rfl, rfl, ?_⟩
  show cmpEqual (normalizeNumericTypes (.map (NormalizeYAML (marshalPrometheusRules c1Doc))))
      (normalizeNumericTypes (.map (NormalizeYAML (marshalPrometheusRules c1Back)))) = false
  have h1 : marshalPrometheusRules c1Doc = c1A0 := rfl
  have h2 : marshalPrometheusRules c1Back = c1B0 := rfl
  rw [h1, h2]
  have h3 : NormalizeYAML c1A0 = c1A1 := rfl
  have h4 : NormalizeYAML c1B0 = c1B1 := rfl
  rw [h3, h4]
  have h5 : normalizeNumericTypes (.map c1A1) = .map c1A1 := rfl
  have h6 : normalizeNumericTypes (.map c1B1) = .map c1B1 := rfl
  rw [h5, h6]
  exact rfl

theorem c1_forward (doc : PrometheusRules) (g : PrometheusRulesGroup) (r : PrometheusRule)
    (xs : List (String × String))
    (hg : doc.spec.groups = [g])
    (hr : g.rules = [r])
    (hann : r.annotations = some xs)
    (hsum : lookupStr xs "summary" = none)
    (hdesc : lookupStr xs "description" = none)
    (hcrit : lookupStr xs "dash0-threshold-critical" = none)
    (hdeg : lookupStr xs "dash0-threshold-degraded" = none)
    (hen : lookupStr xs "dash0-enabled" = none) :
    ConvertPromYAMLToDash0CheckRule doc "default" =
      .ok { dataset := "default", id := "", name := g.name ++ " - " ++ r.alert
            expression := r.expr, thresholds := { degraded := 0, failed := 0 }
            summary := "", description := "", interval := g.interval
            forD := r.forD, keepFiringFor := r.keepFiringFor
            labels := r.labels, annotations := some xs, enabled := true } := by
  simp [ConvertPromYAMLToDash0CheckRule, hg, hr, hann, strLookup,
    hsum, hdesc, hcrit, hdeg, hen, Bind.bind, Except.bind, Pure.pure, Except.pure]

theorem c1_backward (g : PrometheusRulesGroup) (r : PrometheusRule)
    (xs : List (String × String))
    (hsep : splitFirst (" - ".data) (g.name ++ " - " ++ r.alert).data =
      some (g.name.data, r.alert.data)) :
    ConvertDash0JSONtoPrometheusRules
      { dataset := "default", id := "", name := g.name ++ " - " ++ r.alert
        expression := r.expr, thresholds := { degraded := 0, failed := 0 }
        summary := "", description := "", interval := g.interval
        forD := r.forD, keepFiringFor := r.keepFiringFor
        labels := r.labels, annotations := some xs, enabled := true } =
      some { apiVersion := "monitoring.coreos.com/v1", kind := "PrometheusRule"
             metadata := some []
             spec := { groups := [{ name := g.name, interval := g.interval
                                    rules := [{ alert := r.alert, expr := r.expr
                                                forD := r.forD
                                                keepFiringFor := r.keepFiringFor
                                                labels := r.labels
                                                annotations := some xs }] }] } } := by
  have hsep2 := hsep
  simp at hsep2
  simp [ConvertDash0JSONtoPrometheusRules, hsep2, Option.bind]

/-- **C1** (amended): the round trip holds for documents whose joined
`group - alert` name splits back at the original junction, whose rule
annotations contain none of the five extracted keys, whose metadata keys
are all ignored by normalization, and whose normalized marshalled form has
duplicate-free map keys. -/
theorem C1_round_trip_on_plain_docs
    (doc : PrometheusRules) (g : PrometheusRulesGroup) (r : PrometheusRule)
    (xs mxs : List (String × String))
    (hg : doc.spec.groups = [g])
    (hr : g.rules = [r])
    (hsep : splitFirst (" - ".data) (g.name ++ " - " ++ r.alert).data =
      some (g.name.data, r.alert.data))
    (hann : r.annotations = some xs)
    (hsum : lookupStr xs "summary" = none)
    (hdesc : lookupStr xs "description" = none)
    (hcrit : lookupStr xs "dash0-threshold-critical" = none)
    (hdeg : lookupStr xs "dash0-threshold-degraded" = none)
    (hen : lookupStr xs "dash0-enabled" = none)
    (hmeta : doc.metadata = some mxs)
    (hmkeys : ∀ kv ∈ mxs, removeHere (nestedFor ignoredFields "metadata") kv.1 = true)
    (hwf : wfKeysV (normalizeNumericTypes
      (.map (NormalizeYAML (marshalPrometheusRules doc)))) = true) :
    ∃ rec q, ConvertPromYAMLToDash0CheckRule doc "default" = Except.ok rec
      ∧ ConvertDash0JSONtoPrometheusRules rec = some q
      ∧ ResourceYAMLEquivalent (marshalPrometheusRules doc)
          (marshalPrometheusRules q) = true := by
  refine ⟨_, _, c1_forward doc g r xs hg hr hann hsum hdesc hcrit hdeg hen,
    c1_backward g r xs hsep, ?_⟩
  have hapi : removeHere ignoredFields "apiVersion" = true := by decide
  have hkind : removeHere ignoredFields "kind" = true := by decide
  have hmetaRH : removeHere ignoredFields "metadata" = false := by decide
  have hpmeMeta : ∀ x : Ents, processedMapEntry ignoredFields "metadata" x =
      cleanupMap (nestedFor ignoredFields "metadata") x := fun _ => rfl
  have hmdoc : marshalPrometheusRules doc =
      .cons "apiVersion" (.str doc.apiVersion)
        (.cons "kind" (.str doc.kind)
          (.cons "metadata" (strMapVal (some mxs))
            (.cons "spec" (.map (.cons "groups"
              (.list (Items.ofList ([g].map marshalGroup))) .nil)) .nil))) := by
    rw [show marshalPrometheusRules doc =
      .cons "apiVersion" (.str doc.apiVersion)
        (.cons "kind" (.str doc.kind)
          (.cons "metadata" (strMapVal doc.metadata)
            (.cons "spec" (.map (.cons "groups"
              (.list (Items.ofList (doc.spec.groups.map marshalGroup))) .nil)) .nil)))
      from rfl, hmeta, hg]
  have hrq : ({ alert := r.alert
                expr := r.expr
                forD := r.forD
                keepFiringFor := r.keepFiringFor
                labels := r.labels
                annotations := some xs } : PrometheusRule) = r := by
    rw [← hann]
  have hgq : ({ name := g.name
                interval := g.interval
                rules := [r] } : PrometheusRulesGroup) = g := by
    rw [← hr]
  have hmq : marshalPrometheusRules
      { apiVersion := "monitoring.coreos.com/v1", kind := "PrometheusRule"
        metadata := some []
        spec := { groups := [{ name := g.name, interval := g.interval
                               rules := [{ alert := r.alert, expr := r.expr
                                           forD := r.forD
                                           keepFiringFor := r.keepFiringFor
                                           labels := r.labels
                                           annotations := some xs }] }] } } =
      .cons "apiVersion" (.str "monitoring.coreos.com/v1")
        (.cons "kind" (.str "PrometheusRule")
          (.cons "metadata" (strMapVal (some []))
            (.cons "spec" (.map (.cons "groups"
              (.list (Items.ofList ([g].map marshalGroup))) .nil)) .nil))) := by
    rw [hrq, hgq]
    rfl
  have hcleanmeta : cleanupEntry ignoredFields "metadata" (strMapVal (some mxs)) = none := by
    show cleanupEntry ignoredFields "metadata"
      (.map (Ents.ofList ((sortBy (fun a b => strLe a.1 b.1) mxs).map
        (fun kv => (kv.1, Val.str kv.2))))) = none
    simp only [cleanupEntry]
    rw [if_neg (by rw [hmetaRH]; simp)]
    rw [hpmeMeta]
    rw [cleanup_all_removed _ _ (fun kv h2 => hmkeys kv (mem_sortBy _ mxs kv h2))]
    rfl
  have hcleanmetaq : cleanupEntry ignoredFields "metadata" (strMapVal (some [])) = none := rfl
  have hNd : NormalizeYAML (marshalPrometheusRules doc) =
      NormalizeYAML (marshalPrometheusRules
        { apiVersion := "monitoring.coreos.com/v1", kind := "PrometheusRule"
          metadata := some []
          spec := { groups := [{ name := g.name, interval := g.interval
                                 rules := [{ alert := r.alert, expr := r.expr
                                             forD := r.forD
                                             keepFiringFor := r.keepFiringFor
                                             labels := r.labels
                                             annotations := some xs }] }] } }) := by
    show cleanupMap ignoredFields (marshalPrometheusRules doc) =
      cleanupMap ignoredFields (marshalPrometheusRules _)
    rw [hmdoc, hmq]
    rw [cleanupMap_cons_none
        (cleanupEntry_removed ignoredFields "apiVersion" (.str doc.apiVersion) hapi)]
    rw [cleanupMap_cons_none (cleanupEntry_removed ignoredFields "apiVersion"
        (.str "monitoring.coreos.com/v1") hapi)]
    rw [cleanupMap_cons_none
        (cleanupEntry_removed ignoredFields "kind" (.str doc.kind) hkind)]
    rw [cleanupMap_cons_none (cleanupEntry_removed ignoredFields "kind"
        (.str "PrometheusRule") hkind)]
    rw [cleanupMap_cons_none hcleanmeta]
    rw [cleanupMap_cons_none hcleanmetaq]
  show cmpEqual
      (normalizeNumericTypes (.map (NormalizeYAML (marshalPrometheusRules doc))))
      (normalizeNumericTypes (.map (NormalizeYAML (marshalPrometheusRules _)))) = true
  rw [← hNd]
  exact cmpEqual_refl _ hwf

theorem C1_round_trip_on_plain_docs_witness :
    lookupStr [("foo", "bar")] "dash0-enabled" = none
    ∧ ∃ rec q, ConvertPromYAMLToDash0CheckRule c1WDoc "default" = Except.ok rec
        ∧ ConvertDash0JSONtoPrometheusRules rec = some q
        ∧ ResourceYAMLEquivalent (marshalPrometheusRules c1WDoc)
            (marshalPrometheusRules q) = true :=
  ⟨rfl, C1_round_trip_on_plain_docs c1WDoc c1WG c1WR [("foo", "bar")] [("name", "n")]
    rfl rfl rfl rfl rfl rfl rfl rfl rfl rfl (by decide) rfl⟩

end Dash0
